import Mathlib

namespace LlmQueueProxy

/-!
Verification of the llm-queue-proxy core: a shallow embedding of the
session repository (in-memory and SQLite backends), the rate-limited
dispatcher queue, the usage parser, and the session path router,
together with theorems settling the specification's claims.

Conventions of the embedding:
* Go `int` is modelled as unbounded `Int` (overflow is out of scope).
* Go run-time panics (divide by zero, send on / close of a closed
  channel) are modelled explicitly with a `GoPanic` marker.
* The in-memory repository is modelled with an explicit heap so that
  pointer aliasing and the `sessCopy := *sess` copies of the source are
  visible; the SQLite backend is modelled by the semantics of its SQL
  statements on the `sessions` table (an association list keyed by the
  primary key `session_id`).
-/

/-- The `entities.TokenUsage` from `session_data.go` / `session.go`:
prompt, completion and total token counters of one upstream exchange. -/
structure TokenUsage where
  promptTokens : Int
  completionTokens : Int
  totalTokens : Int
deriving Repr, DecidableEq

/-- The `entities.SessionData`: a session record with its accumulated
token counters and request count. -/
structure SessionData where
  sessionID : String
  totalPromptTokens : Int
  totalCompletionTokens : Int
  totalTokens : Int
  requestCount : Int
deriving Repr, DecidableEq

/-- The zero-valued session record created on first reference: the Go
struct literal with only SessionID set, all counters at their zero
values. -/
def zeroSession (sessionID : String) : SessionData :=
  { sessionID := sessionID
    totalPromptTokens := 0
    totalCompletionTokens := 0
    totalTokens := 0
    requestCount := 0 }

/-- Smallest value of a Go int (int64 on 64-bit platforms). -/
def int64Min : Int := -9223372036854775808

/-- Largest value of a Go int (int64 on 64-bit platforms). -/
def int64Max : Int := 9223372036854775807

/-- The modulus of two's-complement int64 arithmetic. -/
def twoPow64 : Int := 18446744073709551616

/-- Two's-complement wrap-around of Go int64 arithmetic: the value in
the int64 range congruent to n modulo 2^64. -/
def wrap64 (n : Int) : Int :=
  (n - int64Min) % twoPow64 + int64Min

/-- A value representable in a Go int / SQLite INTEGER (int64). -/
def InRange64 (n : Int) : Prop := int64Min ≤ n ∧ n ≤ int64Max

instance (n : Int) : Decidable (InRange64 n) :=
  inferInstanceAs (Decidable (int64Min ≤ n ∧ n ≤ int64Max))

/-- The four `+=` / `++` statements of `MemoryRepository.UpdateSessionTokens`:
add the usage's three counters to the stored totals and increment the
request count by one, in Go int arithmetic, which wraps to int64 on
overflow. -/
def addUsage (s : SessionData) (u : TokenUsage) : SessionData :=
  { s with
    totalPromptTokens := wrap64 (s.totalPromptTokens + u.promptTokens)
    totalCompletionTokens := wrap64 (s.totalCompletionTokens + u.completionTokens)
    totalTokens := wrap64 (s.totalTokens + u.totalTokens)
    requestCount := wrap64 (s.requestCount + 1) }

/-- The exact (mathematical) counterpart of one accumulation step:
what the wrapped/checked additions compute when nothing overflows. -/
def addUsageExact (s : SessionData) (u : TokenUsage) : SessionData :=
  { s with
    totalPromptTokens := s.totalPromptTokens + u.promptTokens
    totalCompletionTokens := s.totalCompletionTokens + u.completionTokens
    totalTokens := s.totalTokens + u.totalTokens
    requestCount := s.requestCount + 1 }

/-! ## Go channel and panic model

The dispatcher (`queue.go`) uses a buffered channel `q.ch`. Per the Go
language specification, a send on a closed channel and the close of an
already-closed channel are run-time panics; we track the channel's
closed flag and buffered contents and surface those panics. -/

/-- A Go run-time panic, with the runtime's message. -/
structure GoPanic where
  message : String
deriving Repr, DecidableEq

/-- A Go channel: its closed flag and buffered (unreceived) values. -/
structure GoChan (α : Type) where
  closed : Bool
  buffer : List α
deriving Repr, DecidableEq

/-- The `make(chan T, n)`: an open channel with an empty buffer. -/
def GoChan.make (α : Type) : GoChan α := { closed := false, buffer := [] }

/-- Go send `ch <- v`: a run-time panic if the channel is closed,
otherwise the value is appended to the buffer. -/
def GoChan.send {α : Type} (c : GoChan α) (v : α) : Except GoPanic (GoChan α) :=
  if c.closed then
    .error { message := "send on closed channel" }
  else
    .ok { c with buffer := c.buffer ++ [v] }

/-- Go `close(ch)`: a run-time panic if the channel is already closed,
otherwise the channel is marked closed. -/
def GoChan.closeChan {α : Type} (c : GoChan α) : Except GoPanic (GoChan α) :=
  if c.closed then
    .error { message := "close of closed channel" }
  else
    .ok { c with closed := true }

/-! ## Dispatcher (`queue.go`) -/

/-- The `entities.ProxyRequest` (the reply channel is kept abstract: the
dispatcher model only needs the channel state of `q.ch`). -/
structure ProxyRequest where
  method : String
  path : String
  headers : List (String × List String)
  body : List UInt8
deriving Repr, DecidableEq

/-- The state of a `Queue` that matters for `Push`/`Close`: its
admission channel `q.ch`. -/
structure Queue where
  ch : GoChan ProxyRequest
deriving Repr, DecidableEq

/-- The `time.Minute` in nanoseconds (a `time.Duration` is an `int64`
count of nanoseconds). -/
def timeMinute : Int := 60000000000

/-- Go integer division truncates toward zero; dividing by zero is a
run-time panic. `Int.tdiv` is truncated division, matching Go. -/
def goIntDiv (a b : Int) : Except GoPanic Int :=
  if b = 0 then .error { message := "integer divide by zero" }
  else .ok (a.tdiv b)

/-- The admission-interval computation of `NewQueue`
(`queue.go:91`): `interval := time.Minute / time.Duration(limitPerMin)`,
with no guard on the limit. The result is the interval in nanoseconds,
or the run-time panic Go raises when `limitPerMin` is zero. -/
def newQueueInterval (limitPerMin : Int) : Except GoPanic Int :=
  goIntDiv timeMinute limitPerMin

/-- The pacing step of the admission loop (`queue.go:94`):
`time.Sleep(interval)`. Per the Go documentation, a negative or zero
duration causes `Sleep` to return immediately, so the effective pause
is `max interval 0`. -/
def sleepDuration (interval : Int) : Int := max interval 0

/-- The `NewQueue` (`queue.go:84-100`) as far as its fallible part goes:
constructing the queue allocates a fresh open channel and computes the
admission interval; the interval computation panics at `limitPerMin = 0`. -/
def newQueue (limitPerMin : Int) : Except GoPanic (Queue × Int) :=
  match newQueueInterval limitPerMin with
  | .error p => .error p
  | .ok interval => .ok ({ ch := GoChan.make ProxyRequest }, interval)

/-- The `Queue.Push` (`queue.go:103-107`): sends the request on `q.ch`
unconditionally (no closed-state guard). -/
def Queue.push (q : Queue) (r : ProxyRequest) : Except GoPanic Queue :=
  match q.ch.send r with
  | .error p => .error p
  | .ok c => .ok { ch := c }

/-- The `Queue.Close` (`queue.go:110-112`): `close(q.ch)` with no guard. -/
def Queue.close (q : Queue) : Except GoPanic Queue :=
  match q.ch.closeChan with
  | .error p => .error p
  | .ok c => .ok { ch := c }

/-- The dispatcher's view of the upstream exchange in `Queue.handle`
(`queue.go:133-144`): either the transport fails
(`http.DefaultClient.Do` returns an error), or a status code and
headers are received and the body read (`io.ReadAll`) returns the bytes
it got and possibly a read error. -/
inductive ExchangeOutcome where
  | transportFailure (msg : String)
  | received (statusCode : Int) (headers : List (String × List String))
      (bodyBytes : List UInt8) (readFailure : Option String)
deriving Repr, DecidableEq

/-- The `entities.ProxyResponse`: status code, headers, body and the
optional failure indicator `Err`. -/
structure ProxyResponse where
  statusCode : Int
  headers : List (String × List String)
  body : List UInt8
  err : Option String
deriving Repr, DecidableEq

/-- The reply assembly of `Queue.handle` (`queue.go:133-151`): a
transport failure is sent back as `ProxyResponse{Err: err}`; otherwise
the code executes `respBody, _ := io.ReadAll(resp.Body)` — the read
error is discarded — and replies with the status code, cloned headers
and whatever bytes were read, with no failure indicator. -/
def handleReply (outcome : ExchangeOutcome) : ProxyResponse :=
  match outcome with
  | .transportFailure msg =>
      { statusCode := 0, headers := [], body := [], err := some msg }
  | .received statusCode headers bodyBytes _ =>
      { statusCode := statusCode, headers := headers
        body := bodyBytes, err := none }

/-! ## In-memory repository (`repository.go`), with an explicit heap

`MemoryRepository` stores `map[string]*entities.SessionData`: the map
holds pointers into the heap. To make the source's copy discipline
(`sessCopy := *sess; return &sessCopy`) provable, the heap is explicit:
a list of `SessionData` cells addressed by index, with allocation
appending a cell. Returned sessions are heap addresses, so aliasing
into (or independence from) the store is a statement about addresses. -/

/-- A heap of `SessionData` cells; the address of a cell is its index. -/
structure Mem where
  cells : List SessionData
deriving Repr, DecidableEq

/-- Allocate a cell holding `v` (taking the address of a fresh local,
as in `sessCopy := *sess; return &sessCopy`), returning the new heap
and the cell's address. -/
def Mem.alloc (m : Mem) (v : SessionData) : Mem × Nat :=
  ({ cells := m.cells ++ [v] }, m.cells.length)

/-- Dereference a pointer: read the cell at address `a`. -/
def Mem.read (m : Mem) (a : Nat) : Option SessionData :=
  m.cells.get? a

/-- Assign through a pointer: overwrite the cell at address `a`. -/
def Mem.write (m : Mem) (a : Nat) (v : SessionData) : Mem :=
  { cells := m.cells.set a v }

/-- The `MemoryRepository`: the heap plus `sessions`, the
`map[string]*entities.SessionData` of session ids to cell addresses. -/
structure MemoryRepository where
  mem : Mem
  sessions : List (String × Nat)
deriving Repr, DecidableEq

/-- The `NewMemoryRepository`: an empty map over an empty heap. -/
def MemoryRepository.new : MemoryRepository :=
  { mem := { cells := [] }, sessions := [] }

/-- Go map lookup `r.sessions[sessionID]`: the pointer stored for the
id, if present. -/
def MemoryRepository.lookupAddr (r : MemoryRepository) (sessionID : String) :
    Option Nat :=
  (r.sessions.find? (fun p => p.1 = sessionID)).map Prod.snd

/-- The session value currently stored for an id (dereferencing the
stored pointer): the observable state of the repository. -/
def MemoryRepository.view (r : MemoryRepository) (sessionID : String) :
    Option SessionData :=
  (r.lookupAddr sessionID).bind r.mem.read

/-- The `MemoryRepository.GetSession` (`repository.go:52-63`): absent id
fails with `ErrSessionNotFound`; otherwise `sessCopy := *sess` copies
the stored record into a fresh cell whose address is returned.
(The inner `none` branch — a dangling stored pointer — is unreachable
for repositories built by the operations below.) -/
def MemoryRepository.getSession (r : MemoryRepository) (sessionID : String) :
    Except String Nat × MemoryRepository :=
  match r.lookupAddr sessionID with
  | none => (.error "session not found", r)
  | some a =>
    match r.mem.read a with
    | none => (.error "session not found", r)
    | some v =>
      let (m, a2) := r.mem.alloc v
      (.ok a2, { r with mem := m })

/-- The `MemoryRepository.CreateSession` (`repository.go:67-82`): if the id
exists, return a copy of the existing record (unchanged); otherwise
store a fresh zero-valued record under the id and return a copy of it.
Never fails. -/
def MemoryRepository.createSession (r : MemoryRepository) (sessionID : String) :
    Nat × MemoryRepository :=
  match r.lookupAddr sessionID with
  | some a =>
    let v := (r.mem.read a).getD (zeroSession sessionID)
    let (m, a2) := r.mem.alloc v
    (a2, { r with mem := m })
  | none =>
    let v := zeroSession sessionID
    let (m1, a1) := r.mem.alloc v
    let (m2, a2) := m1.alloc v
    (a2, { mem := m2, sessions := (sessionID, a1) :: r.sessions })

/-- The `MemoryRepository.UpdateSessionTokens` (`repository.go:86-103`): if
the id is absent, first store a fresh zero-valued record; then add the
usage's three counters to the stored record in place and increment its
request count; finally return the address of a fresh copy
(`sessCopy := *sess`). -/
def MemoryRepository.updateSessionTokens (r : MemoryRepository)
    (sessionID : String) (u : TokenUsage) : Nat × MemoryRepository :=
  match r.lookupAddr sessionID with
  | some a =>
    let v := (r.mem.read a).getD (zeroSession sessionID)
    let v2 := addUsage v u
    let m1 := r.mem.write a v2
    let (m2, a2) := m1.alloc v2
    (a2, { r with mem := m2 })
  | none =>
    let v := zeroSession sessionID
    let (m1, a1) := r.mem.alloc v
    let v2 := addUsage v u
    let m2 := m1.write a1 v2
    let (m3, a2) := m2.alloc v2
    (a2, { mem := m3, sessions := (sessionID, a1) :: r.sessions })

/-- The loop body of `ListSessions`: for one stored entry,
`vCopy := *v` reads the record and allocates a fresh copy
(`Mem.alloc` inlined: the copy's address is the current heap size)
whose address goes into the result map. -/
def listFold : List (String × Nat) → (List (String × Nat) × Mem) →
    List (String × Nat) × Mem
  | [], acc => acc
  | p :: rest, acc =>
    listFold rest
      (acc.1 ++ [(p.1, acc.2.cells.length)],
       { cells := acc.2.cells ++ [(acc.2.read p.2).getD (zeroSession p.1)] })

/-- The `MemoryRepository.ListSessions` (`repository.go:106-116`): build a
fresh result map; for each stored session, `vCopy := *v` copies the
record into a fresh cell whose address goes into the result. -/
def MemoryRepository.listSessions (r : MemoryRepository) :
    List (String × Nat) × MemoryRepository :=
  let res := listFold r.sessions ([], r.mem)
  (res.1, { r with mem := res.2 })

/-- The `MemoryRepository.Close` (`repository.go`): a no-op returning nil. -/
def MemoryRepository.closeRepo (r : MemoryRepository) :
    Option String × MemoryRepository :=
  (none, r)

/-! ## SQLite repository (`SQLiteRepository`, modelling its SQL)

The `sessions` table keyed by primary key `session_id` is an
association list (at most one row per id by the primary-key
constraint). Each operation is the semantics of its SQL statements;
database/connection failures are external and out of scope. -/

/-- The SQLite backend: the `sessions` table rows and the connection's
open/closed state (`sql.DB`). -/
structure SQLiteRepository where
  rows : List (String × SessionData)
  dbOpen : Bool
deriving Repr, DecidableEq

/-- The `SELECT ... FROM sessions WHERE session_id = ?`. -/
def SQLiteRepository.selectRow (t : SQLiteRepository) (sessionID : String) :
    Option SessionData :=
  (t.rows.find? (fun p => p.1 = sessionID)).map Prod.snd

/-- The `SQLiteRepository.GetSession`: select the row; `sql.ErrNoRows`
becomes `ErrSessionNotFound`. -/
def SQLiteRepository.getSession (t : SQLiteRepository) (sessionID : String) :
    Except String SessionData :=
  match t.selectRow sessionID with
  | none => .error "session not found"
  | some v => .ok v

/-- The `SQLiteRepository.CreateSession` (part_002:87-123), one
transaction: `INSERT ... VALUES (?, 0, 0, 0, 0) ON CONFLICT(session_id)
DO NOTHING`, then select the row (existing or freshly zeroed) and
return it. -/
def SQLiteRepository.createSession (t : SQLiteRepository) (sessionID : String) :
    SessionData × SQLiteRepository :=
  match t.selectRow sessionID with
  | some v => (v, t)
  | none =>
    let v := zeroSession sessionID
    (v, { t with rows := t.rows ++ [(sessionID, v)] })

/-- The server-side additions of the upsert's DO UPDATE SET clause:
SQLite INTEGER addition is exact on int64 and raises an
integer-overflow error when a result leaves the int64 range, aborting
the statement. -/
def sqliteAddRow (v : SessionData) (u : TokenUsage) :
    Except String SessionData :=
  if InRange64 (v.totalPromptTokens + u.promptTokens) ∧
     InRange64 (v.totalCompletionTokens + u.completionTokens) ∧
     InRange64 (v.totalTokens + u.totalTokens) ∧
     InRange64 (v.requestCount + 1) then
    .ok (addUsageExact v u)
  else
    .error "integer overflow"

/-- The `SQLiteRepository.UpdateSessionTokens` (part_002:127-163), one
transaction: `INSERT ... VALUES (?, ?, ?, ?, 1) ON CONFLICT(session_id)
DO UPDATE SET` each total to the server-side sum and
`request_count = sessions.request_count + 1`, then select and return
the updated row. A failing statement (server-side overflow) is
returned as the error, the deferred Rollback leaving the table
unchanged. -/
def SQLiteRepository.updateSessionTokens (t : SQLiteRepository)
    (sessionID : String) (u : TokenUsage) :
    Except String SessionData × SQLiteRepository :=
  match t.selectRow sessionID with
  | some v =>
    match sqliteAddRow v u with
    | .error e => (.error e, t)
    | .ok v2 =>
      (.ok v2, { t with
           rows := t.rows.map (fun p => if p.1 = sessionID then (p.1, v2) else p) })
  | none =>
    let v2 := { sessionID := sessionID
                totalPromptTokens := u.promptTokens
                totalCompletionTokens := u.completionTokens
                totalTokens := u.totalTokens
                requestCount := 1 }
    (.ok v2, { t with rows := t.rows ++ [(sessionID, v2)] })

/-- The `SQLiteRepository.Close` (part_002:55-60): `if r.db != nil` close
the connection; `database/sql`'s `DB.Close` is safe to call repeatedly
and returns nil, so every call succeeds without error. -/
def SQLiteRepository.closeRepo (t : SQLiteRepository) :
    Option String × SQLiteRepository :=
  (none, { t with dbOpen := false })

/-! ## Session path router

The router's implementation (the repository's extractSessionID and
removeSessionFromPath used by the proxy handler) is not among the
given source files; only its tests (Test_extractSessionID,
Test_removeSessionFromPath in proxy.go) and its callers are. The
definitions below are therefore modelled from the spec and checked
against the repository's test vectors. -/

/-- The prefix anchoring the session form, spec section 4.1:
matching is strictly anchored at "/v1/session/". -/
def sessionPathAnchor : List Char := "/v1/session/".toList

/-- The result of routing a request path: a malformed session request,
a plain (non-session) path forwarded unchanged, or a session id with
the upstream path. -/
inductive RouteResult where
  | malformed
  | plain (upstreamPath : String)
  | session (id : String) (upstreamPath : String)
deriving Repr, DecidableEq

/-- Modelled from the spec: section 4.1 SessionRouter (the
extractSessionID / removeSessionFromPath implementation is absent from
the given sources). Given a request path, match the session-scoped
form "/v1/session/(id)/(rest)" where the id is a non-empty segment
without '/'. Matched with non-empty rest: (id, "/v1/" ++ rest).
Matched with empty rest: malformed. Otherwise: no session id, path
unchanged. -/
def sessionRoute (path : String) : RouteResult :=
  let cs := path.toList
  if sessionPathAnchor.isPrefixOf cs then
    let after := cs.drop sessionPathAnchor.length
    let id := after.takeWhile (fun c => c != '/')
    if id.isEmpty then .plain path
    else
      let rest := (after.drop id.length).drop 1
      if rest.isEmpty then .malformed
      else .session (String.mk id) (String.mk ("/v1/".toList ++ rest))
  else .plain path

/-- Modelled from the spec: extractSessionID — the session id captured
by the regex "/v1/session/([^/]+)", or "" when the path does not match. -/
def extractSessionID (path : String) : String :=
  let cs := path.toList
  if sessionPathAnchor.isPrefixOf cs then
    String.mk ((cs.drop sessionPathAnchor.length).takeWhile (fun c => c != '/'))
  else ""

/-- Modelled from the spec: removeSessionFromPath — strip the matched
session segment, mapping "/v1/session/(id)/(rest)" to "/v1/(rest)";
non-matching paths are returned unchanged. -/
def removeSessionFromPath (path : String) : String :=
  let cs := path.toList
  if sessionPathAnchor.isPrefixOf cs then
    let after := cs.drop sessionPathAnchor.length
    let id := after.takeWhile (fun c => c != '/')
    if id.isEmpty then path
    else String.mk ("/v1/".toList ++ (after.drop id.length).drop 1)
  else path

/-! ## JSON parsing (encoding/json, as used by ParseTokenUsageFromResponse)

SessionManager.ParseTokenUsageFromResponse (part_003:53-69) calls
json.Unmarshal on the response body into
struct \x7b Usage entities.TokenUsage `json:"usage"` \x7d. The model
below embeds the relevant behavior of encoding/json: a JSON value
grammar with the full number form (integer part, optional fraction and
exponent, no leading zeros), last-binding-wins object fields, absent
or null fields leaving the Go zero value, Go's int64 range and
integrality checks when a number lands in an int field, and a parse
error on bodies that are not valid JSON. -/

/-- A JSON value. A number carries its integer value together with an
integral flag: false when the literal had a fraction or exponent part,
in which case Go's ParseInt rejects it for int fields (the integer
value is then the literal's integer part and is never consumed). -/
inductive Json where
  | null
  | bool (b : Bool)
  | num (n : Int) (integral : Bool)
  | str (s : String)
  | arr (elems : List Json)
  | obj (fields : List (String × Json))
deriving Repr

/-- The '\x7b' character (JSON object opener). -/
def braceOpen : Char := Char.ofNat 123

/-- The '\x7d' character (JSON object closer). -/
def braceClose : Char := Char.ofNat 125

/-- Drop JSON whitespace. -/
def skipWs (cs : List Char) : List Char :=
  cs.dropWhile (fun c => c == ' ' || c == '\t' || c == '\n' || c == '\r')

/-- Parse the body of a JSON string literal after the opening quote,
handling the escape forms that matter here. -/
def parseStringBody : Nat → List Char → List Char → Option (String × List Char)
  | 0, _, _ => none
  | _, [], _ => none
  | Nat.succ fuel, c :: rest, acc =>
    if c == '"' then some (String.mk acc.reverse, rest)
    else if c == '\\' then
      match rest with
      | [] => none
      | e :: rest2 =>
        let ec := if e == 'n' then '\n'
          else if e == 't' then '\t'
          else if e == 'r' then '\r'
          else e
        parseStringBody fuel rest2 (ec :: acc)
    else parseStringBody fuel rest (c :: acc)

/-- Decimal digits to a natural number. -/
def digitsToNat (ds : List Char) : Nat :=
  ds.foldl (fun n c => 10 * n + (c.toNat - '0'.toNat)) 0

/-- Parse the optional exponent part of a JSON number; a present
exponent makes the literal non-integral for Go's ParseInt. -/
def parseExpPart (v : Int) (integral : Bool) (cs : List Char) :
    Option ((Int × Bool) × List Char) :=
  match cs with
  | c :: r1 =>
    if c == 'e' || c == 'E' then
      let body := match r1 with
        | '+' :: t => t
        | '-' :: t => t
        | _ => r1
      let es := body.takeWhile Char.isDigit
      if es.isEmpty then none
      else some ((v, false), body.drop es.length)
    else some ((v, integral), cs)
  | [] => some ((v, integral), [])

/-- Parse a JSON number: optional minus, integer part without leading
zeros, optional fraction and exponent. The integral flag records
whether the literal was a plain integer. -/
def parseNumber (cs : List Char) : Option ((Int × Bool) × List Char) :=
  let signed := match cs with
    | '-' :: t => (true, t)
    | _ => (false, cs)
  let ds := signed.2.takeWhile Char.isDigit
  if ds.isEmpty then none
  else if 1 < ds.length ∧ ds.head? = some '0' then none
  else
    let n : Int := Int.ofNat (digitsToNat ds)
    let v : Int := if signed.1 then -n else n
    match signed.2.drop ds.length with
    | '.' :: r2 =>
      let fs := r2.takeWhile Char.isDigit
      if fs.isEmpty then none
      else parseExpPart v false (r2.drop fs.length)
    | rest1 => parseExpPart v true rest1

mutual

/-- Parse one JSON value. -/
def parseValue : Nat → List Char → Option (Json × List Char)
  | 0, _ => none
  | Nat.succ fuel, cs =>
    let cs := skipWs cs
    match cs with
    | [] => none
    | c :: rest =>
      if c == '"' then
        match parseStringBody (rest.length + 1) rest [] with
        | none => none
        | some (s, r) => some (.str s, r)
      else if c == braceOpen then parseObjectBody fuel rest
      else if c == '[' then parseArrayBody fuel rest
      else if "true".toList.isPrefixOf cs then some (.bool true, cs.drop 4)
      else if "false".toList.isPrefixOf cs then some (.bool false, cs.drop 5)
      else if "null".toList.isPrefixOf cs then some (.null, cs.drop 4)
      else
        match parseNumber cs with
        | none => none
        | some ((n, integral), r) => some (.num n integral, r)

/-- Parse an object after its opening brace. -/
def parseObjectBody : Nat → List Char → Option (Json × List Char)
  | 0, _ => none
  | Nat.succ fuel, cs =>
    let cs := skipWs cs
    match cs with
    | [] => none
    | c :: rest =>
      if c == braceClose then some (.obj [], rest)
      else
        match parseMembers fuel cs with
        | none => none
        | some (fields, r) => some (.obj fields, r)

/-- Parse one or more key-value members, ending at the closing brace. -/
def parseMembers : Nat → List Char → Option (List (String × Json) × List Char)
  | 0, _ => none
  | Nat.succ fuel, cs =>
    let cs := skipWs cs
    match cs with
    | [] => none
    | c :: rest =>
      if c == '"' then
        match parseStringBody (rest.length + 1) rest [] with
        | none => none
        | some (key, r1) =>
          match skipWs r1 with
          | ':' :: r2 =>
            match parseValue fuel r2 with
            | none => none
            | some (v, r3) =>
              match skipWs r3 with
              | ',' :: r4 =>
                match parseMembers fuel r4 with
                | none => none
                | some (fields, r5) => some ((key, v) :: fields, r5)
              | d :: r4 =>
                if d == braceClose then some ([(key, v)], r4) else none
              | [] => none
          | _ => none
      else none

/-- Parse an array after its opening bracket. -/
def parseArrayBody : Nat → List Char → Option (Json × List Char)
  | 0, _ => none
  | Nat.succ fuel, cs =>
    let cs := skipWs cs
    match cs with
    | [] => none
    | c :: rest =>
      if c == ']' then some (.arr [], rest)
      else
        match parseElements fuel cs with
        | none => none
        | some (elems, r) => some (.arr elems, r)

/-- Parse one or more array elements, ending at the closing bracket. -/
def parseElements : Nat → List Char → Option (List Json × List Char)
  | 0, _ => none
  | Nat.succ fuel, cs =>
    match parseValue fuel cs with
    | none => none
    | some (v, r1) =>
      match skipWs r1 with
      | ',' :: r2 =>
        match parseElements fuel r2 with
        | none => none
        | some (elems, r3) => some (v :: elems, r3)
      | ']' :: r2 => some ([v], r2)
      | _ => none

end

/-- The heap addresses the store's map currently points to. -/
def MemoryRepository.storeAddrs (r : MemoryRepository) : List Nat :=
  r.sessions.map Prod.snd

/-- Well-formedness of a memory repository, maintained by all its
operations: every stored pointer is a live heap cell, distinct map
entries hold distinct pointers (each stored cell was allocated fresh),
and there is at most one map entry per session id. -/
def MemoryRepository.Wf (r : MemoryRepository) : Prop :=
  (∀ p ∈ r.sessions, p.2 < r.mem.cells.length) ∧
  r.storeAddrs.Nodup ∧
  (r.sessions.map Prod.fst).Nodup

/-- Mutating a Session value returned by the repository (the caller
writes through the returned pointer). -/
def MemoryRepository.writeAt (r : MemoryRepository) (a : Nat)
    (v : SessionData) : MemoryRepository :=
  { r with mem := r.mem.write a v }

/-- Elementwise sum of the prompt counters of a usage sequence. -/
def sumPrompt (us : List TokenUsage) : Int :=
  (us.map TokenUsage.promptTokens).sum

/-- Elementwise sum of the completion counters of a usage sequence. -/
def sumCompletion (us : List TokenUsage) : Int :=
  (us.map TokenUsage.completionTokens).sum

/-- Elementwise sum of the total counters of a usage sequence. -/
def sumTotal (us : List TokenUsage) : Int :=
  (us.map TokenUsage.totalTokens).sum

/-- A usage whose three counters are non-negative. -/
def TokenUsage.Nonneg (u : TokenUsage) : Prop :=
  0 ≤ u.promptTokens ∧ 0 ≤ u.completionTokens ∧ 0 ≤ u.totalTokens

/-- A sequence of UpdateSessionTokens calls for one id on the memory
backend (the state after each call feeds the next). -/
def MemoryRepository.runUpdates (r : MemoryRepository) (id : String)
    (us : List TokenUsage) : MemoryRepository :=
  us.foldl (fun s u => (s.updateSessionTokens id u).2) r

/-- A sequence of UpdateSessionTokens calls for one id on the SQLite
backend. -/
def SQLiteRepository.runUpdates (t : SQLiteRepository) (id : String)
    (us : List TokenUsage) : SQLiteRepository :=
  us.foldl (fun s u => (s.updateSessionTokens id u).2) t

/-- One mutating repository operation: CreateSession or
UpdateSessionTokens (the two operations of the claimed invariant). -/
inductive RepoOp where
  | create (id : String)
  | update (id : String) (u : TokenUsage)
deriving Repr

/-- The usages an operation sequence applies to a given id. -/
def usagesFor (id : String) (ops : List RepoOp) : List TokenUsage :=
  ops.filterMap (fun op => match op with
    | .update id2 u => if id2 = id then some u else none
    | .create _ => none)

/-- An operation whose usage (if any) is non-negative. -/
def RepoOp.Nonneg : RepoOp → Prop
  | .create _ => True
  | .update _ u => u.Nonneg

/-- Apply one operation to the memory backend. -/
def MemoryRepository.applyOp (r : MemoryRepository) : RepoOp → MemoryRepository
  | .create id => (r.createSession id).2
  | .update id u => (r.updateSessionTokens id u).2

/-- Run an operation sequence on the memory backend. -/
def MemoryRepository.runOps (r : MemoryRepository) (ops : List RepoOp) :
    MemoryRepository :=
  ops.foldl MemoryRepository.applyOp r

/-- Apply one operation to the SQLite backend. -/
def SQLiteRepository.applyOp (t : SQLiteRepository) : RepoOp → SQLiteRepository
  | .create id => (t.createSession id).2
  | .update id u => (t.updateSessionTokens id u).2

/-- Run an operation sequence on the SQLite backend. -/
def SQLiteRepository.runOps (t : SQLiteRepository) (ops : List RepoOp) :
    SQLiteRepository :=
  ops.foldl SQLiteRepository.applyOp t

/-- The observable counters of an id on the memory backend: the stored
record's counters, or zeros when the id is absent (the value its
session would be created with). -/
def MemoryRepository.countersOf (r : MemoryRepository) (id : String) :
    SessionData :=
  (r.view id).getD (zeroSession id)

/-- The observable counters of an id on the SQLite backend. -/
def SQLiteRepository.countersOf (t : SQLiteRepository) (id : String) :
    SessionData :=
  (t.selectRow id).getD (zeroSession id)

/-- Pointwise order on the four counters of a session record. -/
def SessionData.le (s1 s2 : SessionData) : Prop :=
  s1.totalPromptTokens ≤ s2.totalPromptTokens ∧
  s1.totalCompletionTokens ≤ s2.totalCompletionTokens ∧
  s1.totalTokens ≤ s2.totalTokens ∧
  s1.requestCount ≤ s2.requestCount

/-- Non-negativity of the four counters of a session record. -/
def SessionData.Nonneg (s : SessionData) : Prop :=
  0 ≤ s.totalPromptTokens ∧ 0 ≤ s.totalCompletionTokens ∧
  0 ≤ s.totalTokens ∧ 0 ≤ s.requestCount

/-- C10: once `Close` has been called on a `Queue`, its channel is
closed, and any subsequent `Push` sends on that closed channel and
panics (`Push` has no guard turning submit-after-close into an error
response). -/
theorem push_after_close_panics (q q' : Queue) (r : ProxyRequest)
    (h : q.close = .ok q') :
    q'.push r = .error { message := "send on closed channel" } := by
  unfold Queue.close GoChan.closeChan at h
  by_cases hc : q.ch.closed
  · simp [hc] at h
  · simp [hc] at h
    subst h
    unfold Queue.push GoChan.send
    simp

/-- Witness for `push_after_close_panics`: closing a fresh queue
succeeds, and a push on the closed queue panics. -/
theorem push_after_close_panics_witness :
    ({ ch := GoChan.make ProxyRequest } : Queue).close =
      .ok { ch := { closed := true, buffer := [] } } ∧
    ({ ch := { closed := true, buffer := [] } } : Queue).push
        { method := "POST", path := "/v1/test", headers := [], body := [] } =
      .error { message := "send on closed channel" } := by
  refine ⟨rfl, ?_⟩
  exact push_after_close_panics { ch := GoChan.make ProxyRequest } _ _ rfl

/-- C2 (evaluation at the failing input): `NewQueue` computes
`time.Minute / time.Duration(limitPerMin)` unguarded, so a rate limit
of 0 is an integer divide-by-zero run-time panic, and a negative rate
limit yields a negative interval, for which `time.Sleep` returns
immediately — the queue runs unthrottled rather than substituting a
safe default. -/
theorem newQueue_nonpositive_limit_behavior :
    newQueue 0 = .error { message := "integer divide by zero" } ∧
    newQueueInterval (-10) = .ok (-6000000000) ∧
    sleepDuration (-6000000000) = 0 := by
  refine ⟨rfl, rfl, rfl⟩

/-- C3 counterexample: calling `Queue.Close` twice in a row on a fresh
queue panics on the second call (close of a closed channel), so close
is not idempotent on the Dispatcher as the claim states. -/
theorem queue_close_twice_panics :
    (({ ch := GoChan.make ProxyRequest } : Queue).close.bind Queue.close) =
      .error { message := "close of closed channel" } := rfl

/-- C3 amended: `close()` called twice on either SessionStore backend
succeeds without error both times and is idempotent on the state, but
`Queue.Close` called a second time on the same Queue panics (it closes
an already closed channel unguarded). -/
theorem close_twice_amended :
    (∀ r : MemoryRepository,
      r.closeRepo.1 = none ∧ r.closeRepo.2.closeRepo.1 = none ∧
        r.closeRepo.2.closeRepo.2 = r.closeRepo.2) ∧
    (∀ t : SQLiteRepository,
      t.closeRepo.1 = none ∧ t.closeRepo.2.closeRepo.1 = none ∧
        t.closeRepo.2.closeRepo.2 = t.closeRepo.2) ∧
    (∀ q q' : Queue, q.close = .ok q' →
      q'.close = .error { message := "close of closed channel" }) := by
  refine ⟨fun r => ⟨rfl, rfl, rfl⟩, fun t => ⟨rfl, rfl, rfl⟩, fun q q' h => ?_⟩
  unfold Queue.close GoChan.closeChan at h ⊢
  by_cases hc : q.ch.closed
  · simp [hc] at h
  · simp [hc] at h
    subst h
    simp

/-- Witness for `close_twice_amended`: instantiated on the empty memory
repository, a fresh SQLite repository, and a freshly closed queue. -/
theorem close_twice_amended_witness :
    MemoryRepository.new.closeRepo.1 = none ∧
    ({ rows := [], dbOpen := true } : SQLiteRepository).closeRepo.1 = none ∧
    ({ ch := { closed := true, buffer := [] } } : Queue).close =
      .error { message := "close of closed channel" } := by
  refine ⟨(close_twice_amended.1 MemoryRepository.new).1,
    (close_twice_amended.2.1 { rows := [], dbOpen := true }).1,
    close_twice_amended.2.2 { ch := GoChan.make ProxyRequest } _ rfl⟩

/-- C7 counterexample: on an exchange where status 200 and headers were
received but the body read failed, `Queue.handle` replies with no
failure indicator (`Err` is nil) and the truncated bytes — an apparent
success, contradicting the claim that a body-read failure is reported
as a distinct failure. -/
theorem body_read_failure_not_reported :
    handleReply (.received 200 [("Content-Type", ["application/json"])]
        [123] (some "unexpected EOF")) =
      { statusCode := 200, headers := [("Content-Type", ["application/json"])]
        body := [123], err := none } ∧
    (handleReply (.received 200 [("Content-Type", ["application/json"])]
        [123] (some "unexpected EOF"))).err = none := ⟨rfl, rfl⟩

/-- C7 amended: when a status code was received and the body read
subsequently fails, the Dispatcher silently discards the read error
(`respBody, _ := io.ReadAll`): it replies with the received status
code, the headers already obtained, and whatever bytes were read
before the failure, with no failure indicator. -/
theorem body_read_failure_silently_dropped (status : Int)
    (hs : List (String × List String)) (bytes : List UInt8) (msg : String) :
    handleReply (.received status hs bytes (some msg)) =
      { statusCode := status, headers := hs, body := bytes, err := none } := rfl

/-- The router model reproduces every vector of the repository's
Test_extractSessionID. -/
theorem extractSessionID_matches_repo_tests :
    extractSessionID "/v1/session/abc123/chat/completions" = "abc123" ∧
    extractSessionID "/v1/session/xyz789/" = "xyz789" ∧
    extractSessionID "/v1/chat/completions" = "" ∧
    extractSessionID "/foo/bar" = "" ∧
    extractSessionID "" = "" ∧
    extractSessionID "/" = "" ∧
    extractSessionID "/v1/session/" = "" := by
  refine ⟨rfl, rfl, rfl, rfl, rfl, rfl, rfl⟩

/-- The router model reproduces every vector of the repository's
Test_removeSessionFromPath. -/
theorem removeSessionFromPath_matches_repo_tests :
    removeSessionFromPath "/v1/session/abc123/chat/completions" = "/v1/chat/completions" ∧
    removeSessionFromPath "/v1/session/xyz789/" = "/v1/" ∧
    removeSessionFromPath "/v1/session/onlysess" = "/v1/" ∧
    removeSessionFromPath "/v1/chat/completions" = "/v1/chat/completions" ∧
    removeSessionFromPath "/v1/session/" = "/v1/session/" ∧
    removeSessionFromPath "/" = "/" ∧
    removeSessionFromPath "" = "" := by
  refine ⟨rfl, rfl, rfl, rfl, rfl, rfl, rfl⟩

/-- C6: the session path router returns (id "abc123",
upstream "/v1/chat/completions") on "/v1/session/abc123/chat/completions";
signals a malformed session request on "/v1/session/xyz/" (non-empty id,
empty remainder); and returns no session id with the path unchanged on
"/v1/chat/completions". (As a Lean function the model is pure and
side-effect-free by construction.) -/
theorem sessionRouter_cases :
    sessionRoute "/v1/session/abc123/chat/completions" =
      .session "abc123" "/v1/chat/completions" ∧
    sessionRoute "/v1/session/xyz/" = .malformed ∧
    sessionRoute "/v1/chat/completions" = .plain "/v1/chat/completions" := by
  refine ⟨rfl, rfl, rfl⟩

/-! ### Repository helper lemmas -/

theorem lookupAddr_mem {r : MemoryRepository} {id : String} {a : Nat}
    (h : r.lookupAddr id = some a) : ∃ p ∈ r.sessions, p.1 = id ∧ p.2 = a := by
  unfold MemoryRepository.lookupAddr at h
  cases hf : r.sessions.find? (fun p => p.1 = id) with
  | none => rw [hf] at h; simp at h
  | some p =>
    rw [hf] at h
    simp at h
    refine ⟨p, List.mem_of_find?_eq_some hf, ?_, h⟩
    simpa using List.find?_some hf

theorem lookupAddr_lt {r : MemoryRepository} (hWf : r.Wf) {id : String} {a : Nat}
    (h : r.lookupAddr id = some a) : a < r.mem.cells.length := by
  obtain ⟨p, hp, _, hpa⟩ := lookupAddr_mem h
  exact hpa ▸ hWf.1 p hp

theorem lookupAddr_addr_mem {r : MemoryRepository} {id : String} {a : Nat}
    (h : r.lookupAddr id = some a) : a ∈ r.storeAddrs := by
  obtain ⟨p, hp, _, hpa⟩ := lookupAddr_mem h
  exact hpa ▸ List.mem_map_of_mem Prod.snd hp

theorem lookupAddr_ne {r : MemoryRepository} (hWf : r.Wf) {id id' : String}
    {a a' : Nat} (hne : id' ≠ id) (h : r.lookupAddr id = some a)
    (h' : r.lookupAddr id' = some a') : a' ≠ a := by
  obtain ⟨p, hp, hp1, hp2⟩ := lookupAddr_mem h
  obtain ⟨q, hq, hq1, hq2⟩ := lookupAddr_mem h'
  intro hEq
  have hnd : (r.sessions.map Prod.snd).Nodup := hWf.2.1
  have hpq : q = p := List.inj_on_of_nodup_map hnd hq hp (by rw [hq2, hp2, hEq])
  exact hne (by rw [← hq1, hpq, hp1])

theorem lookupAddr_eq_of_sessions_eq {r1 r2 : MemoryRepository}
    (h : r1.sessions = r2.sessions) (id : String) :
    r1.lookupAddr id = r2.lookupAddr id := by
  unfold MemoryRepository.lookupAddr
  rw [h]

theorem set_append_length {α : Type} (l : List α) (a b : α) :
    (l ++ [a]).set l.length b = l ++ [b] := by
  induction l with
  | nil => rfl
  | cons x xs ih => simp [ih]

theorem update_present_eq {r : MemoryRepository} {id : String} {a : Nat}
    (u : TokenUsage) (h : r.lookupAddr id = some a) :
    r.updateSessionTokens id u =
      (r.mem.cells.length,
       { mem := { cells :=
           (r.mem.cells.set a (addUsage ((r.mem.read a).getD (zeroSession id)) u)) ++
             [addUsage ((r.mem.read a).getD (zeroSession id)) u] }
         sessions := r.sessions }) := by
  unfold MemoryRepository.updateSessionTokens
  rw [h]
  simp [Mem.write, Mem.alloc]

theorem update_absent_eq {r : MemoryRepository} {id : String}
    (u : TokenUsage) (h : r.lookupAddr id = none) :
    r.updateSessionTokens id u =
      (r.mem.cells.length + 1,
       { mem := { cells :=
           (r.mem.cells ++ [addUsage (zeroSession id) u]) ++
             [addUsage (zeroSession id) u] }
         sessions := (id, r.mem.cells.length) :: r.sessions }) := by
  unfold MemoryRepository.updateSessionTokens
  rw [h]
  simp [Mem.write, Mem.alloc, set_append_length]

theorem update_present_snd {r : MemoryRepository} {id : String} {a : Nat}
    (u : TokenUsage) (h : r.lookupAddr id = some a) :
    (r.updateSessionTokens id u).2 =
      { mem := { cells :=
          (r.mem.cells.set a (addUsage ((r.mem.read a).getD (zeroSession id)) u)) ++
            [addUsage ((r.mem.read a).getD (zeroSession id)) u] }
        sessions := r.sessions } := by
  rw [update_present_eq u h]

theorem update_present_fst {r : MemoryRepository} {id : String} {a : Nat}
    (u : TokenUsage) (h : r.lookupAddr id = some a) :
    (r.updateSessionTokens id u).1 = r.mem.cells.length := by
  rw [update_present_eq u h]

theorem update_absent_snd {r : MemoryRepository} {id : String}
    (u : TokenUsage) (h : r.lookupAddr id = none) :
    (r.updateSessionTokens id u).2 =
      { mem := { cells :=
          (r.mem.cells ++ [addUsage (zeroSession id) u]) ++
            [addUsage (zeroSession id) u] }
        sessions := (id, r.mem.cells.length) :: r.sessions } := by
  rw [update_absent_eq u h]

theorem update_absent_fst {r : MemoryRepository} {id : String}
    (u : TokenUsage) (h : r.lookupAddr id = none) :
    (r.updateSessionTokens id u).1 = r.mem.cells.length + 1 := by
  rw [update_absent_eq u h]

theorem lookupAddr_def (r : MemoryRepository) (id : String) :
    r.lookupAddr id = (r.sessions.find? (fun p => p.1 = id)).map Prod.snd := rfl

theorem update_view_self {r : MemoryRepository} (hWf : r.Wf) (id : String)
    (u : TokenUsage) :
    (r.updateSessionTokens id u).2.view id =
      some (addUsage (r.countersOf id) u) := by
  cases h : r.lookupAddr id with
  | some a =>
    have ha := lookupAddr_lt hWf h
    have hf : (r.sessions.find? (fun p => p.1 = id)).map Prod.snd = some a := h
    simp only [MemoryRepository.view, MemoryRepository.countersOf,
      update_present_snd u h, lookupAddr_def, hf, Option.some_bind, Mem.read]
    rw [List.get?_append (by simpa using ha), List.get?_set_eq_of_lt _ ha]
  | none =>
    simp only [MemoryRepository.view, update_absent_snd u h, lookupAddr_def]
    rw [List.find?_cons_of_pos _ (by simp)]
    simp only [Option.map_some', Option.some_bind, Mem.read]
    rw [List.get?_append (by simp), List.get?_concat_length]
    simp [MemoryRepository.countersOf, MemoryRepository.view, h]

theorem update_view_frame {r : MemoryRepository} (hWf : r.Wf) {id : String}
    (u : TokenUsage) {id2 : String} (hne : id2 ≠ id) :
    (r.updateSessionTokens id u).2.view id2 = r.view id2 := by
  cases h : r.lookupAddr id with
  | some a =>
    simp only [MemoryRepository.view, update_present_snd u h, lookupAddr_def]
    cases h2 : (r.sessions.find? (fun p => p.1 = id2)).map Prod.snd with
    | none => rfl
    | some a2 =>
      have ha2 := lookupAddr_lt hWf (show r.lookupAddr id2 = some a2 from h2)
      have hne2 : a2 ≠ a :=
        lookupAddr_ne hWf hne h (show r.lookupAddr id2 = some a2 from h2)
      simp only [Option.some_bind, Mem.read]
      rw [List.get?_append (by simpa using ha2), List.get?_set_ne _ _ (Ne.symm hne2)]
  | none =>
    simp only [MemoryRepository.view, update_absent_snd u h, lookupAddr_def]
    rw [List.find?_cons_of_neg _ (by simp [hne.symm])]
    cases h2 : (r.sessions.find? (fun p => p.1 = id2)).map Prod.snd with
    | none => rfl
    | some a2 =>
      have hlt := lookupAddr_lt hWf (show r.lookupAddr id2 = some a2 from h2)
      simp only [Option.some_bind, Mem.read]
      rw [List.get?_append (by simp; omega), List.get?_append (by simpa using hlt)]

theorem lookupAddr_none_not_mem {r : MemoryRepository} {id : String}
    (h : r.lookupAddr id = none) : id ∉ r.sessions.map Prod.fst := by
  unfold MemoryRepository.lookupAddr at h
  rw [Option.map_eq_none'] at h
  rw [List.find?_eq_none] at h
  intro hm
  obtain ⟨p, hp, hpf⟩ := List.mem_map.mp hm
  have hne : ¬(p.1 = id) := by simpa using h p hp
  exact hne hpf

theorem get?_concat_len {α : Type} (l : List α) (a : α) (n : Nat)
    (h : n = l.length) : (l ++ [a]).get? n = some a := by
  subst h
  exact List.get?_concat_length l a

theorem update_returned {r : MemoryRepository} (id : String)
    (u : TokenUsage) :
    (r.updateSessionTokens id u).2.mem.read (r.updateSessionTokens id u).1 =
      some (addUsage (r.countersOf id) u) := by
  cases h : r.lookupAddr id with
  | some a =>
    rw [update_present_snd u h, update_present_fst u h]
    simp only [Mem.read]
    rw [get?_concat_len _ _ _ (by simp)]
    simp [MemoryRepository.countersOf, MemoryRepository.view, h, Mem.read]
  | none =>
    rw [update_absent_snd u h, update_absent_fst u h]
    simp only [Mem.read]
    rw [get?_concat_len _ _ _ (by simp)]
    simp [MemoryRepository.countersOf, MemoryRepository.view, h]

theorem update_wf {r : MemoryRepository} (hWf : r.Wf) (id : String)
    (u : TokenUsage) : (r.updateSessionTokens id u).2.Wf := by
  obtain ⟨h1, h2, h3⟩ := hWf
  cases h : r.lookupAddr id with
  | some a =>
    rw [update_present_snd u h]
    refine ⟨?_, h2, h3⟩
    intro p hp
    have := h1 p hp
    simp
    omega
  | none =>
    rw [update_absent_snd u h]
    refine ⟨?_, ?_, ?_⟩
    · intro p hp
      simp only [List.mem_cons] at hp
      rcases hp with hp | hp
      · rw [hp]
        simp
      · have := h1 p hp
        simp
        omega
    · show ((( id, r.mem.cells.length) :: r.sessions).map Prod.snd).Nodup
      simp only [List.map_cons, List.nodup_cons]
      refine ⟨?_, h2⟩
      intro hm
      obtain ⟨p, hp, hpn⟩ := List.mem_map.mp hm
      have := h1 p hp
      omega
    · simp only [List.map_cons, List.nodup_cons]
      exact ⟨lookupAddr_none_not_mem h, h3⟩

theorem update_returned_fresh {r : MemoryRepository} (hWf : r.Wf) (id : String)
    (u : TokenUsage) :
    (r.updateSessionTokens id u).1 ∉ (r.updateSessionTokens id u).2.storeAddrs := by
  cases h : r.lookupAddr id with
  | some a =>
    rw [update_present_fst u h, update_present_snd u h]
    intro hm
    obtain ⟨p, hp, hpn⟩ := List.mem_map.mp hm
    have := hWf.1 p hp
    omega
  | none =>
    rw [update_absent_fst u h, update_absent_snd u h]
    intro hm
    simp only [MemoryRepository.storeAddrs, List.map_cons, List.mem_cons] at hm
    rcases hm with hm | hm
    · omega
    · obtain ⟨p, hp, hpn⟩ := List.mem_map.mp hm
      have := hWf.1 p hp
      omega

theorem writeAt_view {r : MemoryRepository} {b : Nat}
    (hb : b ∉ r.storeAddrs) (v : SessionData) (id : String) :
    (r.writeAt b v).view id = r.view id := by
  simp only [MemoryRepository.writeAt, MemoryRepository.view, lookupAddr_def]
  cases h : (r.sessions.find? (fun p => p.1 = id)).map Prod.snd with
  | none => rfl
  | some a =>
    have ha : a ∈ r.storeAddrs :=
      lookupAddr_addr_mem (show r.lookupAddr id = some a from h)
    have hba : b ≠ a := fun hEq => hb (hEq ▸ ha)
    simp only [Option.some_bind, Mem.read, Mem.write]
    rw [List.get?_set_ne _ _ hba]

theorem create_present_eq {r : MemoryRepository} {id : String} {a : Nat}
    (h : r.lookupAddr id = some a) :
    r.createSession id =
      (r.mem.cells.length,
       { mem := { cells := r.mem.cells ++ [(r.mem.read a).getD (zeroSession id)] }
         sessions := r.sessions }) := by
  unfold MemoryRepository.createSession
  rw [h]
  simp [Mem.alloc]

theorem create_absent_eq {r : MemoryRepository} {id : String}
    (h : r.lookupAddr id = none) :
    r.createSession id =
      (r.mem.cells.length + 1,
       { mem := { cells := (r.mem.cells ++ [zeroSession id]) ++ [zeroSession id] }
         sessions := (id, r.mem.cells.length) :: r.sessions }) := by
  unfold MemoryRepository.createSession
  rw [h]
  simp [Mem.alloc]

theorem create_present_snd {r : MemoryRepository} {id : String} {a : Nat}
    (h : r.lookupAddr id = some a) :
    (r.createSession id).2 =
      { mem := { cells := r.mem.cells ++ [(r.mem.read a).getD (zeroSession id)] }
        sessions := r.sessions } := by
  rw [create_present_eq h]

theorem create_present_fst {r : MemoryRepository} {id : String} {a : Nat}
    (h : r.lookupAddr id = some a) :
    (r.createSession id).1 = r.mem.cells.length := by
  rw [create_present_eq h]

theorem create_absent_snd {r : MemoryRepository} {id : String}
    (h : r.lookupAddr id = none) :
    (r.createSession id).2 =
      { mem := { cells := (r.mem.cells ++ [zeroSession id]) ++ [zeroSession id] }
        sessions := (id, r.mem.cells.length) :: r.sessions } := by
  rw [create_absent_eq h]

theorem create_absent_fst {r : MemoryRepository} {id : String}
    (h : r.lookupAddr id = none) :
    (r.createSession id).1 = r.mem.cells.length + 1 := by
  rw [create_absent_eq h]

theorem create_view_present {r : MemoryRepository} (hWf : r.Wf) {id : String}
    {a : Nat} (h : r.lookupAddr id = some a) (id2 : String) :
    (r.createSession id).2.view id2 = r.view id2 := by
  simp only [MemoryRepository.view, create_present_snd h, lookupAddr_def]
  cases h2 : (r.sessions.find? (fun p => p.1 = id2)).map Prod.snd with
  | none => rfl
  | some a2 =>
    have hlt := lookupAddr_lt hWf (show r.lookupAddr id2 = some a2 from h2)
    simp only [Option.some_bind, Mem.read]
    rw [List.get?_append (by simpa using hlt)]

theorem create_view_absent_self {r : MemoryRepository} {id : String}
    (h : r.lookupAddr id = none) :
    (r.createSession id).2.view id = some (zeroSession id) := by
  simp only [MemoryRepository.view, create_absent_snd h, lookupAddr_def]
  rw [List.find?_cons_of_pos _ (by simp)]
  simp only [Option.map_some', Option.some_bind, Mem.read]
  rw [List.get?_append (by simp), List.get?_concat_length]

theorem create_view_absent_frame {r : MemoryRepository} (hWf : r.Wf)
    {id : String} (h : r.lookupAddr id = none) {id2 : String} (hne : id2 ≠ id) :
    (r.createSession id).2.view id2 = r.view id2 := by
  simp only [MemoryRepository.view, create_absent_snd h, lookupAddr_def]
  rw [List.find?_cons_of_neg _ (by simp [hne.symm])]
  cases h2 : (r.sessions.find? (fun p => p.1 = id2)).map Prod.snd with
  | none => rfl
  | some a2 =>
    have hlt := lookupAddr_lt hWf (show r.lookupAddr id2 = some a2 from h2)
    simp only [Option.some_bind, Mem.read]
    rw [List.get?_append (by simp; omega), List.get?_append (by simpa using hlt)]

theorem create_returned {r : MemoryRepository} (id : String) :
    (r.createSession id).2.mem.read (r.createSession id).1 =
      some (r.countersOf id) := by
  cases h : r.lookupAddr id with
  | some a =>
    rw [create_present_snd h, create_present_fst h]
    simp only [Mem.read]
    rw [get?_concat_len _ _ _ rfl]
    simp [MemoryRepository.countersOf, MemoryRepository.view, h, Mem.read]
  | none =>
    rw [create_absent_snd h, create_absent_fst h]
    simp only [Mem.read]
    rw [get?_concat_len _ _ _ (by simp)]
    simp [MemoryRepository.countersOf, MemoryRepository.view, h]

theorem create_wf {r : MemoryRepository} (hWf : r.Wf) (id : String) :
    (r.createSession id).2.Wf := by
  obtain ⟨h1, h2, h3⟩ := hWf
  cases h : r.lookupAddr id with
  | some a =>
    rw [create_present_snd h]
    refine ⟨?_, h2, h3⟩
    intro p hp
    have := h1 p hp
    simp
    omega
  | none =>
    rw [create_absent_snd h]
    refine ⟨?_, ?_, ?_⟩
    · intro p hp
      simp only [List.mem_cons] at hp
      rcases hp with hp | hp
      · rw [hp]
        simp
      · have := h1 p hp
        simp
        omega
    · show (((id, r.mem.cells.length) :: r.sessions).map Prod.snd).Nodup
      simp only [List.map_cons, List.nodup_cons]
      refine ⟨?_, h2⟩
      intro hm
      obtain ⟨p, hp, hpn⟩ := List.mem_map.mp hm
      have := h1 p hp
      omega
    · simp only [List.map_cons, List.nodup_cons]
      exact ⟨lookupAddr_none_not_mem h, h3⟩

theorem create_returned_fresh {r : MemoryRepository} (hWf : r.Wf) (id : String) :
    (r.createSession id).1 ∉ (r.createSession id).2.storeAddrs := by
  cases h : r.lookupAddr id with
  | some a =>
    rw [create_present_fst h, create_present_snd h]
    intro hm
    obtain ⟨p, hp, hpn⟩ := List.mem_map.mp hm
    have := hWf.1 p hp
    omega
  | none =>
    rw [create_absent_fst h, create_absent_snd h]
    intro hm
    simp only [MemoryRepository.storeAddrs, List.map_cons, List.mem_cons] at hm
    rcases hm with hm | hm
    · omega
    · obtain ⟨p, hp, hpn⟩ := List.mem_map.mp hm
      have := hWf.1 p hp
      omega

theorem wf_new : MemoryRepository.new.Wf := by
  refine ⟨?_, ?_, ?_⟩ <;> simp [MemoryRepository.new, MemoryRepository.storeAddrs]

theorem view_new (id : String) : MemoryRepository.new.view id = none := rfl

theorem lookupAddr_of_mem {r : MemoryRepository} (hWf : r.Wf)
    {p : String × Nat} (hp : p ∈ r.sessions) : r.lookupAddr p.1 = some p.2 := by
  unfold MemoryRepository.lookupAddr
  cases hf : r.sessions.find? (fun q => q.1 = p.1) with
  | none =>
    rw [List.find?_eq_none] at hf
    have := hf p hp
    simp at this
  | some q =>
    have hq : q ∈ r.sessions := List.mem_of_find?_eq_some hf
    have hq1 : q.1 = p.1 := by simpa using List.find?_some hf
    have hqp : q = p := List.inj_on_of_nodup_map hWf.2.2 hq hp hq1
    rw [hqp]
    rfl

theorem get_present_eq {r : MemoryRepository} {id : String} {a : Nat}
    {v : SessionData} (h : r.lookupAddr id = some a)
    (hv : r.mem.read a = some v) :
    r.getSession id =
      (.ok r.mem.cells.length,
       { mem := { cells := r.mem.cells ++ [v] }, sessions := r.sessions }) := by
  unfold MemoryRepository.getSession
  rw [h]
  simp [hv, Mem.alloc]

theorem get_absent_eq {r : MemoryRepository} {id : String}
    (h : r.lookupAddr id = none) :
    r.getSession id = (.error "session not found", r) := by
  unfold MemoryRepository.getSession
  rw [h]

theorem view_read_some {r : MemoryRepository} (hWf : r.Wf) {id : String}
    {a : Nat} (h : r.lookupAddr id = some a) :
    ∃ v, r.mem.read a = some v ∧ r.view id = some v := by
  have ha := lookupAddr_lt hWf h
  cases hv : r.mem.read a with
  | none =>
    exfalso
    have hv2 : r.mem.cells.get? a = none := hv
    have := List.get?_eq_none.mp hv2
    omega
  | some v =>
    exact ⟨v, rfl, by unfold MemoryRepository.view; rw [h]; exact hv⟩

theorem get_view_frame {r : MemoryRepository} (hWf : r.Wf) (id id2 : String) :
    (r.getSession id).2.view id2 = r.view id2 := by
  cases h : r.lookupAddr id with
  | some a =>
    obtain ⟨v, hv, _⟩ := view_read_some hWf h
    simp only [MemoryRepository.view, get_present_eq h hv, lookupAddr_def]
    cases h2 : (r.sessions.find? (fun p => p.1 = id2)).map Prod.snd with
    | none => rfl
    | some a2 =>
      have hlt := lookupAddr_lt hWf (show r.lookupAddr id2 = some a2 from h2)
      simp only [Option.some_bind, Mem.read]
      rw [List.get?_append (by simpa using hlt)]
  | none => rw [get_absent_eq h]

theorem get_returned {r : MemoryRepository} (hWf : r.Wf) {id : String}
    {a : Nat} (h : r.lookupAddr id = some a) :
    ∃ a2, (r.getSession id).1 = .ok a2 ∧
      (r.getSession id).2.mem.read a2 = r.view id := by
  obtain ⟨v, hv, hview⟩ := view_read_some hWf h
  refine ⟨r.mem.cells.length, ?_, ?_⟩
  · rw [get_present_eq h hv]
  · rw [get_present_eq h hv, hview]
    simp only [Mem.read]
    rw [get?_concat_len _ _ _ rfl]

theorem get_wf {r : MemoryRepository} (hWf : r.Wf) (id : String) :
    (r.getSession id).2.Wf := by
  obtain ⟨h1, h2, h3⟩ := hWf
  cases h : r.lookupAddr id with
  | some a =>
    obtain ⟨v, hv, _⟩ := view_read_some ⟨h1, h2, h3⟩ h
    rw [get_present_eq h hv]
    refine ⟨?_, h2, h3⟩
    intro p hp
    have := h1 p hp
    simp
    omega
  | none =>
    rw [get_absent_eq h]
    exact ⟨h1, h2, h3⟩

theorem get_returned_fresh {r : MemoryRepository} (hWf : r.Wf) {id : String}
    {a a2 : Nat} (h : r.lookupAddr id = some a)
    (h2 : (r.getSession id).1 = .ok a2) :
    a2 ∉ (r.getSession id).2.storeAddrs := by
  obtain ⟨v, hv, _⟩ := view_read_some hWf h
  rw [get_present_eq h hv] at h2 ⊢
  simp only [Except.ok.injEq] at h2
  subst h2
  intro hm
  obtain ⟨p, hp, hpn⟩ := List.mem_map.mp hm
  have := hWf.1 p hp
  omega

theorem update_mem_frame {s : MemoryRepository} (hWf : s.Wf) (id : String)
    (u : TokenUsage) {b : Nat} (hb : b ∉ s.storeAddrs)
    (hlt : b < s.mem.cells.length) :
    (s.updateSessionTokens id u).2.mem.read b = s.mem.read b := by
  cases h : s.lookupAddr id with
  | some a =>
    rw [update_present_snd u h]
    have hba : b ≠ a := fun hEq => hb (hEq ▸ lookupAddr_addr_mem h)
    simp only [Mem.read]
    rw [List.get?_append (by simpa using hlt), List.get?_set_ne _ _ (Ne.symm hba)]
  | none =>
    rw [update_absent_snd u h]
    simp only [Mem.read]
    rw [List.get?_append (by simp; omega), List.get?_append (by simpa using hlt)]

theorem create_mem_frame {s : MemoryRepository} (id : String) {b : Nat}
    (hlt : b < s.mem.cells.length) :
    (s.createSession id).2.mem.read b = s.mem.read b := by
  cases h : s.lookupAddr id with
  | some a =>
    rw [create_present_snd h]
    simp only [Mem.read]
    rw [List.get?_append (by simpa using hlt)]
  | none =>
    rw [create_absent_snd h]
    simp only [Mem.read]
    rw [List.get?_append (by simp; omega), List.get?_append (by simpa using hlt)]

theorem listFold_cells (entries : List (String × Nat)) :
    ∀ acc : List (String × Nat) × Mem,
      ∃ ext, (listFold entries acc).2.cells = acc.2.cells ++ ext := by
  induction entries with
  | nil =>
    intro acc
    exact ⟨[], by simp [listFold]⟩
  | cons p rest ih =>
    intro acc
    obtain ⟨ext, hext⟩ := ih
      (acc.1 ++ [(p.1, acc.2.cells.length)],
       { cells := acc.2.cells ++ [(acc.2.read p.2).getD (zeroSession p.1)] })
    refine ⟨(acc.2.read p.2).getD (zeroSession p.1) :: ext, ?_⟩
    show (listFold rest _).2.cells = _
    rw [hext]
    simp

theorem listFold_snap (entries : List (String × Nat)) :
    ∀ acc : List (String × Nat) × Mem,
      (∀ p ∈ entries, p.2 < acc.2.cells.length) →
      ∀ q ∈ (listFold entries acc).1,
        q ∈ acc.1 ∨
        (acc.2.cells.length ≤ q.2 ∧
         ∃ p ∈ entries, q.1 = p.1 ∧
           (listFold entries acc).2.read q.2 =
             some ((acc.2.read p.2).getD (zeroSession p.1))) := by
  induction entries with
  | nil =>
    intro acc _ q hq
    exact Or.inl (by simpa [listFold] using hq)
  | cons p rest ih =>
    intro acc h q hq
    have hplt := h p (List.mem_cons_self _ _)
    set v := (acc.2.read p.2).getD (zeroSession p.1) with hv
    set acc2 := (acc.1 ++ [(p.1, acc.2.cells.length)],
      ({ cells := acc.2.cells ++ [v] } : Mem)) with hacc2
    have hq2 : q ∈ (listFold rest acc2).1 := hq
    have hrest : ∀ p2 ∈ rest, p2.2 < acc2.2.cells.length := by
      intro p2 hp2
      have := h p2 (List.mem_cons_of_mem _ hp2)
      simp [hacc2]
      omega
    rcases ih acc2 hrest q hq2 with hin | ⟨hge, p2, hp2, hq1, hread⟩
    · rcases List.mem_append.mp hin with hin | hin
      · exact Or.inl hin
      · have hq_eq : q = (p.1, acc.2.cells.length) := by simpa using hin
        refine Or.inr ⟨le_of_eq (by rw [hq_eq]), p, List.mem_cons_self _ _,
          by rw [hq_eq], ?_⟩
        obtain ⟨ext, hext⟩ := listFold_cells rest acc2
        show (listFold rest acc2).2.read q.2 = some v
        unfold Mem.read
        rw [hext, hq_eq]
        show ((acc.2.cells ++ [v]) ++ ext).get? acc.2.cells.length = some v
        rw [List.get?_append (by simp), get?_concat_len _ _ _ rfl]
    · have hp2lt := h p2 (List.mem_cons_of_mem _ hp2)
      have hstable : acc2.2.read p2.2 = acc.2.read p2.2 := by
        show (acc.2.cells ++ [v]).get? p2.2 = acc.2.read p2.2
        rw [List.get?_append (by simpa using hp2lt)]
        rfl
      refine Or.inr ⟨?_, p2, List.mem_cons_of_mem _ hp2, hq1, ?_⟩
      · have : acc2.2.cells.length = acc.2.cells.length + 1 := by simp [hacc2]
        omega
      · show (listFold rest acc2).2.read q.2 = _
        rw [hread, hstable]

theorem listSessions_sessions (r : MemoryRepository) :
    r.listSessions.2.sessions = r.sessions := rfl

theorem listSessions_view {r : MemoryRepository} (hWf : r.Wf) (id : String) :
    r.listSessions.2.view id = r.view id := by
  obtain ⟨ext, hext⟩ := listFold_cells r.sessions ([], r.mem)
  simp only [MemoryRepository.view, MemoryRepository.listSessions, lookupAddr_def]
  cases h2 : (r.sessions.find? (fun p => p.1 = id)).map Prod.snd with
  | none => rfl
  | some a =>
    have hlt := lookupAddr_lt hWf (show r.lookupAddr id = some a from h2)
    simp only [Option.some_bind, Mem.read]
    rw [hext]
    rw [List.get?_append (by simpa using hlt)]

theorem listSessions_wf {r : MemoryRepository} (hWf : r.Wf) :
    r.listSessions.2.Wf := by
  obtain ⟨ext, hext⟩ := listFold_cells r.sessions ([], r.mem)
  obtain ⟨h1, h2, h3⟩ := hWf
  refine ⟨?_, h2, h3⟩
  intro p hp
  have := h1 p hp
  show p.2 < (listFold r.sessions ([], r.mem)).2.cells.length
  rw [hext]
  simp
  omega

theorem listSessions_snap {r : MemoryRepository} (hWf : r.Wf) :
    ∀ q ∈ r.listSessions.1,
      r.mem.cells.length ≤ q.2 ∧
      r.listSessions.2.mem.read q.2 =
        some ((r.view q.1).getD (zeroSession q.1)) := by
  intro q hq
  have hfold := listFold_snap r.sessions ([], r.mem)
    (fun p hp => hWf.1 p hp) q hq
  rcases hfold with hin | ⟨hge, p, hp, hq1, hread⟩
  · simp at hin
  · refine ⟨hge, ?_⟩
    have hv : r.view p.1 = r.mem.read p.2 := by
      unfold MemoryRepository.view
      rw [lookupAddr_of_mem hWf hp]
      rfl
    rw [hq1, hv]
    exact hread

theorem listSessions_snap_fresh {r : MemoryRepository} (hWf : r.Wf) :
    ∀ q ∈ r.listSessions.1, q.2 ∉ r.listSessions.2.storeAddrs := by
  intro q hq hm
  have h1 := (listSessions_snap hWf q hq).1
  obtain ⟨p, hp, hpn⟩ := List.mem_map.mp hm
  have := hWf.1 p hp
  omega

theorem listSessions_snap_stable {r : MemoryRepository} (hWf : r.Wf) :
    ∀ q ∈ r.listSessions.1, ∀ op : RepoOp,
      (r.listSessions.2.applyOp op).mem.read q.2 =
        r.listSessions.2.mem.read q.2 := by
  intro q hq op
  have hWf2 := listSessions_wf hWf
  have hread := (listSessions_snap hWf q hq).2
  have hlt : q.2 < r.listSessions.2.mem.cells.length := by
    have hg : r.listSessions.2.mem.cells.get? q.2 =
        some ((r.view q.1).getD (zeroSession q.1)) := hread
    exact (List.get?_eq_some.mp hg).1
  have hfresh := listSessions_snap_fresh hWf q hq
  cases op with
  | create id => exact create_mem_frame id hlt
  | update id u => exact update_mem_frame hWf2 id u hfresh hlt

/-! ### SQLite repository lemmas -/

theorem find_map_replace (rows : List (String × SessionData)) (id : String)
    (v2 : SessionData) :
    (rows.map (fun p => if p.1 = id then (p.1, v2) else p)).find?
        (fun p => p.1 = id) =
      (rows.find? (fun p => p.1 = id)).map (fun p => (p.1, v2)) := by
  induction rows with
  | nil => rfl
  | cons p rest ih =>
    by_cases hp : p.1 = id
    · simp only [List.map_cons, if_pos hp]
      rw [List.find?_cons_of_pos _ (by simp [hp]),
        List.find?_cons_of_pos _ (by simp [hp])]
      rfl
    · simp only [List.map_cons, if_neg hp]
      rw [List.find?_cons_of_neg _ (by simp [hp]),
        List.find?_cons_of_neg _ (by simp [hp]), ih]

theorem find_map_replace_ne (rows : List (String × SessionData)) {id id2 : String}
    (v2 : SessionData) (hne : id2 ≠ id) :
    (rows.map (fun p => if p.1 = id then (p.1, v2) else p)).find?
        (fun p => p.1 = id2) =
      rows.find? (fun p => p.1 = id2) := by
  induction rows with
  | nil => rfl
  | cons p rest ih =>
    by_cases hp : p.1 = id
    · have hp2 : ¬(p.1 = id2) := by
        rw [hp]
        exact fun hEq => hne hEq.symm
      simp only [List.map_cons, if_pos hp]
      rw [List.find?_cons_of_neg _ (by simp [hp2]),
        List.find?_cons_of_neg _ (by simp [hp2]), ih]
    · by_cases hp2 : p.1 = id2
      · simp only [List.map_cons, if_neg hp]
        rw [List.find?_cons_of_pos _ (by simp [hp2]),
          List.find?_cons_of_pos _ (by simp [hp2])]
      · simp only [List.map_cons, if_neg hp]
        rw [List.find?_cons_of_neg _ (by simp [hp2]),
          List.find?_cons_of_neg _ (by simp [hp2]), ih]

theorem selectRow_def (t : SQLiteRepository) (id : String) :
    t.selectRow id = (t.rows.find? (fun p => p.1 = id)).map Prod.snd := rfl

theorem sqlite_insert_select {t : SQLiteRepository} {id : String}
    (v : SessionData)
    (h : t.selectRow id = none) :
    (({ t with rows := t.rows ++ [(id, v)] } : SQLiteRepository).selectRow id) =
      some v := by
  rw [selectRow_def] at h ⊢
  rw [Option.map_eq_none'] at h
  show ((t.rows ++ [(id, v)]).find? (fun p => p.1 = id)).map Prod.snd = some v
  rw [List.find?_append, h]
  rw [show ((none : Option (String × SessionData)).or (List.find? (fun p => decide (p.1 = id)) [(id, v)])) = List.find? (fun p => decide (p.1 = id)) [(id, v)] from rfl]
  rw [List.find?_cons_of_pos _ (by simp)]
  rfl

theorem sqlite_insert_select_ne {t : SQLiteRepository} {id id2 : String}
    (v : SessionData) (hne : id2 ≠ id) :
    (({ t with rows := t.rows ++ [(id, v)] } : SQLiteRepository).selectRow id2) =
      t.selectRow id2 := by
  rw [selectRow_def, selectRow_def]
  show ((t.rows ++ [(id, v)]).find? (fun p => p.1 = id2)).map Prod.snd = _
  rw [List.find?_append]
  cases hf : t.rows.find? (fun p => p.1 = id2) with
  | some p => rfl
  | none =>
    rw [show (none.or (List.find? (fun p => decide (p.1 = id2)) [(id, v)])) = List.find? (fun p => decide (p.1 = id2)) [(id, v)] from rfl]
    rw [List.find?_cons_of_neg _ (by simp [hne.symm])]
    rfl

theorem sqlite_create_present_eq {t : SQLiteRepository} {id : String}
    {v : SessionData} (h : t.selectRow id = some v) :
    t.createSession id = (v, t) := by
  unfold SQLiteRepository.createSession
  rw [h]

theorem sqlite_create_absent_eq {t : SQLiteRepository} {id : String}
    (h : t.selectRow id = none) :
    t.createSession id =
      (zeroSession id, { t with rows := t.rows ++ [(id, zeroSession id)] }) := by
  unfold SQLiteRepository.createSession
  rw [h]

theorem sqlite_create_self (t : SQLiteRepository) (id : String) :
    (t.createSession id).2.selectRow id = some (t.countersOf id) ∧
    (t.createSession id).1 = t.countersOf id := by
  cases h : t.selectRow id with
  | some v =>
    rw [sqlite_create_present_eq h]
    exact ⟨by simp [SQLiteRepository.countersOf, h],
      by simp [SQLiteRepository.countersOf, h]⟩
  | none =>
    rw [sqlite_create_absent_eq h]
    refine ⟨?_, by simp [SQLiteRepository.countersOf, h]⟩
    have := sqlite_insert_select (t := t) (zeroSession id) h
    rw [this]
    simp [SQLiteRepository.countersOf, h]

theorem sqlite_create_frame (t : SQLiteRepository) (id : String)
    {id2 : String} (hne : id2 ≠ id) :
    (t.createSession id).2.selectRow id2 = t.selectRow id2 := by
  cases h : t.selectRow id with
  | some v => rw [sqlite_create_present_eq h]
  | none =>
    rw [sqlite_create_absent_eq h]
    exact sqlite_insert_select_ne _ hne

/-! ### Accumulation across a sequence of updates -/

theorem runUpdates_view (id : String) (us : List TokenUsage) :
    ∀ r : MemoryRepository, r.Wf → ∀ s0, r.view id = some s0 →
      (r.runUpdates id us).view id = some (us.foldl addUsage s0) := by
  induction us with
  | nil =>
    intro r _ s0 h
    simpa [MemoryRepository.runUpdates] using h
  | cons u rest ih =>
    intro r hWf s0 h
    have h1 : (r.updateSessionTokens id u).2.view id = some (addUsage s0 u) := by
      rw [update_view_self hWf]
      simp [MemoryRepository.countersOf, h]
    have h2 := ih (r.updateSessionTokens id u).2 (update_wf hWf id u)
      (addUsage s0 u) h1
    simpa [MemoryRepository.runUpdates] using h2

theorem runUpdates_wf (id : String) (us : List TokenUsage) :
    ∀ r : MemoryRepository, r.Wf → (r.runUpdates id us).Wf := by
  induction us with
  | nil => intro r hWf; simpa [MemoryRepository.runUpdates] using hWf
  | cons u rest ih =>
    intro r hWf
    have := ih (r.updateSessionTokens id u).2 (update_wf hWf id u)
    simpa [MemoryRepository.runUpdates] using this

theorem create_view_self {r : MemoryRepository} (hWf : r.Wf) (id : String) :
    (r.createSession id).2.view id = some (r.countersOf id) := by
  cases h : r.lookupAddr id with
  | some a =>
    rw [create_view_present hWf h]
    obtain ⟨v, hv, hview⟩ := view_read_some hWf h
    rw [hview]
    simp [MemoryRepository.countersOf, hview]
  | none =>
    rw [create_view_absent_self h]
    have hv : r.view id = none := by
      unfold MemoryRepository.view
      rw [h]
      rfl
    simp [MemoryRepository.countersOf, hv]

theorem create_counters_stable {r : MemoryRepository} (hWf : r.Wf)
    (id : String) :
    (r.createSession id).2.countersOf id = r.countersOf id := by
  unfold MemoryRepository.countersOf
  rw [create_view_self hWf id]
  rfl

theorem sqlite_create_counters_stable (t : SQLiteRepository) (id : String) :
    (t.createSession id).2.countersOf id = t.countersOf id := by
  unfold SQLiteRepository.countersOf
  rw [(sqlite_create_self t id).1]
  rfl

/-- C5: createIfAbsent (CreateSession) on both backends never fails
and is idempotent: the returned Session is always the current record of
the id (the zero-valued record when absent), so two consecutive calls
return identical values; a call on a present id returns the existing
Session unchanged and modifies no counter of any session
(request_count included); a call on an absent id creates and returns a
zero-valued Session. -/
theorem createIfAbsent_idempotent :
    (∀ (r : MemoryRepository) (id : String), r.Wf →
      (r.createSession id).2.mem.read (r.createSession id).1 =
        some (r.countersOf id) ∧
      ((r.createSession id).2.createSession id).2.mem.read
          ((r.createSession id).2.createSession id).1 =
        some (r.countersOf id)) ∧
    (∀ (r : MemoryRepository) (id : String) (w : SessionData), r.Wf →
      r.view id = some w →
      (r.createSession id).2.mem.read (r.createSession id).1 = some w ∧
      ∀ id2, (r.createSession id).2.view id2 = r.view id2) ∧
    (∀ (r : MemoryRepository) (id : String), r.lookupAddr id = none →
      (r.createSession id).2.view id = some (zeroSession id)) ∧
    (∀ (t : SQLiteRepository) (id : String),
      (t.createSession id).1 = t.countersOf id ∧
      ((t.createSession id).2.createSession id).1 = t.countersOf id) ∧
    (∀ (t : SQLiteRepository) (id : String) (w : SessionData),
      t.selectRow id = some w → t.createSession id = (w, t)) ∧
    (∀ (t : SQLiteRepository) (id : String), t.selectRow id = none →
      (t.createSession id).2.selectRow id = some (zeroSession id)) := by
  refine ⟨?_, ?_, ?_, ?_, ?_, ?_⟩
  · intro r id hWf
    refine ⟨create_returned id, ?_⟩
    rw [create_returned id, create_counters_stable hWf id]
  · intro r id w hWf hview
    have hc : r.countersOf id = w := by
      simp [MemoryRepository.countersOf, hview]
    cases h : r.lookupAddr id with
    | none =>
      exfalso
      unfold MemoryRepository.view at hview
      rw [h] at hview
      simp at hview
    | some a =>
      exact ⟨by rw [create_returned id, hc], fun id2 => create_view_present hWf h id2⟩
  · intro r id h
    exact create_view_absent_self h
  · intro t id
    refine ⟨(sqlite_create_self t id).2, ?_⟩
    rw [(sqlite_create_self (t.createSession id).2 id).2,
      sqlite_create_counters_stable t id]
  · intro t id w h
    exact sqlite_create_present_eq h
  · intro t id h
    have := (sqlite_create_self t id).1
    rw [this]
    simp [SQLiteRepository.countersOf, h]

/-- Witness for createIfAbsent_idempotent: on fresh backends and id
"s", both consecutive creates return the zero-valued session. -/
theorem createIfAbsent_idempotent_witness :
    (MemoryRepository.new.createSession "s").2.mem.read
        (MemoryRepository.new.createSession "s").1 =
      some (zeroSession "s") ∧
    (({ rows := [], dbOpen := true } : SQLiteRepository).createSession "s").1 =
      zeroSession "s" := by
  constructor
  · have h := (createIfAbsent_idempotent.1 MemoryRepository.new "s" wf_new).1
    simpa [MemoryRepository.countersOf, MemoryRepository.view,
      MemoryRepository.new] using h
  · have h := (createIfAbsent_idempotent.2.2.2.1
      { rows := [], dbOpen := true } "s").1
    simpa [SQLiteRepository.countersOf, SQLiteRepository.selectRow] using h

/-! ### Counter monotonicity and sums over operation sequences -/

theorem update_counters_self {r : MemoryRepository} (hWf : r.Wf)
    (id : String) (u : TokenUsage) :
    (r.updateSessionTokens id u).2.countersOf id =
      addUsage (r.countersOf id) u := by
  unfold MemoryRepository.countersOf
  rw [update_view_self hWf]
  rfl

theorem update_counters_frame {r : MemoryRepository} (hWf : r.Wf)
    (id : String) (u : TokenUsage) {id2 : String} (hne : id2 ≠ id) :
    (r.updateSessionTokens id u).2.countersOf id2 = r.countersOf id2 := by
  unfold MemoryRepository.countersOf
  rw [update_view_frame hWf u hne]

theorem create_counters_frame {r : MemoryRepository} (hWf : r.Wf)
    (id : String) {id2 : String} (hne : id2 ≠ id) :
    (r.createSession id).2.countersOf id2 = r.countersOf id2 := by
  unfold MemoryRepository.countersOf
  cases h : r.lookupAddr id with
  | some a => rw [create_view_present hWf h]
  | none => rw [create_view_absent_frame hWf h hne]

theorem sessionData_le_refl (s : SessionData) : s.le s :=
  ⟨le_refl _, le_refl _, le_refl _, le_refl _⟩

theorem applyOp_wf {r : MemoryRepository} (hWf : r.Wf) (op : RepoOp) :
    (r.applyOp op).Wf := by
  cases op with
  | create id => exact create_wf hWf id
  | update id u => exact update_wf hWf id u

theorem runOps_wf (ops : List RepoOp) :
    ∀ r : MemoryRepository, r.Wf → (r.runOps ops).Wf := by
  induction ops with
  | nil => intro r hWf; simpa [MemoryRepository.runOps] using hWf
  | cons op rest ih =>
    intro r hWf
    have := ih (r.applyOp op) (applyOp_wf hWf op)
    simpa [MemoryRepository.runOps] using this

theorem sessionData_nonneg_of_le {s1 s2 : SessionData} (h1 : s1.Nonneg)
    (h2 : s1.le s2) : s2.Nonneg :=
  ⟨le_trans h1.1 h2.1, le_trans h1.2.1 h2.2.1, le_trans h1.2.2.1 h2.2.2.1,
    le_trans h1.2.2.2 h2.2.2.2⟩

theorem sqlite_create_counters_frame (t : SQLiteRepository) (id : String)
    {id2 : String} (hne : id2 ≠ id) :
    (t.createSession id).2.countersOf id2 = t.countersOf id2 := by
  unfold SQLiteRepository.countersOf
  rw [sqlite_create_frame t id hne]

theorem countersOf_new (id : String) :
    MemoryRepository.new.countersOf id = zeroSession id := rfl

theorem zeroSession_nonneg (id : String) : (zeroSession id).Nonneg :=
  ⟨le_refl 0, le_refl 0, le_refl 0, le_refl 0⟩

/-- C9: on the volatile backend every returned Session is a copy in a
fresh heap cell, never an alias into the store: writing any value
through the pointer returned by get, createIfAbsent or accumulate
changes no stored session; a list() snapshot holds the current values
in fresh cells, writing to a snapshot cell changes no stored session,
and a subsequent store mutation (create or accumulate) does not change
any previously returned snapshot cell. -/
theorem returned_sessions_are_copies :
    (∀ (r : MemoryRepository) (id : String) (a2 : Nat), r.Wf →
      (r.getSession id).1 = .ok a2 →
      ∀ (v : SessionData) (id2 : String),
        (((r.getSession id).2.writeAt a2 v).view id2 =
          (r.getSession id).2.view id2) ∧
        (r.getSession id).2.view id2 = r.view id2) ∧
    (∀ (r : MemoryRepository) (id : String), r.Wf →
      ∀ (v : SessionData) (id2 : String),
        ((r.createSession id).2.writeAt (r.createSession id).1 v).view id2 =
          (r.createSession id).2.view id2) ∧
    (∀ (r : MemoryRepository) (id : String) (u : TokenUsage), r.Wf →
      ∀ (v : SessionData) (id2 : String),
        ((r.updateSessionTokens id u).2.writeAt
            (r.updateSessionTokens id u).1 v).view id2 =
          (r.updateSessionTokens id u).2.view id2) ∧
    (∀ (r : MemoryRepository), r.Wf →
      ∀ q ∈ r.listSessions.1,
        r.listSessions.2.mem.read q.2 =
          some ((r.view q.1).getD (zeroSession q.1)) ∧
        (∀ (v : SessionData) (id2 : String),
          ((r.listSessions.2).writeAt q.2 v).view id2 =
            r.listSessions.2.view id2) ∧
        (∀ op : RepoOp,
          (r.listSessions.2.applyOp op).mem.read q.2 =
            r.listSessions.2.mem.read q.2)) ∧
    (∀ (r : MemoryRepository) (id2 : String), r.Wf →
      r.listSessions.2.view id2 = r.view id2) := by
  refine ⟨?_, ?_, ?_, ?_, ?_⟩
  · intro r id a2 hWf h1 v id2
    cases h : r.lookupAddr id with
    | none =>
      rw [get_absent_eq h] at h1
      exact absurd h1 (by simp)
    | some a =>
      have hfresh := get_returned_fresh hWf h h1
      exact ⟨writeAt_view hfresh v id2, get_view_frame hWf id id2⟩
  · intro r id hWf v id2
    exact writeAt_view (create_returned_fresh hWf id) v id2
  · intro r id u hWf v id2
    exact writeAt_view (update_returned_fresh hWf id u) v id2
  · intro r hWf q hq
    exact ⟨(listSessions_snap hWf q hq).2,
      fun v id2 => writeAt_view (listSessions_snap_fresh hWf q hq) v id2,
      fun op => listSessions_snap_stable hWf q hq op⟩
  · intro r id2 hWf
    exact listSessions_view hWf id2

/-- Witness for returned_sessions_are_copies: on a store holding "s",
writing through the pointers returned by get, createIfAbsent and
accumulate leaves the stored session unchanged. -/
theorem returned_sessions_are_copies_witness :
    ((((MemoryRepository.new.createSession "s").2.getSession "s").2.writeAt 2
        (zeroSession "x")).view "s" =
      ((MemoryRepository.new.createSession "s").2.getSession "s").2.view "s") ∧
    (((MemoryRepository.new.createSession "s").2.writeAt
        (MemoryRepository.new.createSession "s").1 (zeroSession "x")).view "s" =
      (MemoryRepository.new.createSession "s").2.view "s") ∧
    (((MemoryRepository.new.updateSessionTokens "s" ⟨1, 2, 3⟩).2.writeAt
        (MemoryRepository.new.updateSessionTokens "s" ⟨1, 2, 3⟩).1
        (zeroSession "x")).view "s" =
      (MemoryRepository.new.updateSessionTokens "s" ⟨1, 2, 3⟩).2.view "s") := by
  refine ⟨?_, ?_, ?_⟩
  · exact (returned_sessions_are_copies.1
      (MemoryRepository.new.createSession "s").2 "s" 2
      (create_wf wf_new "s") rfl (zeroSession "x") "s").1
  · exact returned_sessions_are_copies.2.1 MemoryRepository.new "s" wf_new
      (zeroSession "x") "s"
  · exact returned_sessions_are_copies.2.2.1 MemoryRepository.new "s"
      ⟨1, 2, 3⟩ wf_new (zeroSession "x") "s"


/-! ### Two's-complement int64 arithmetic lemmas -/

theorem wrap64_add_left (a b : Int) : wrap64 (wrap64 a + b) = wrap64 (a + b) := by
  unfold wrap64 int64Min twoPow64
  omega

theorem wrap64_eq_self {n : Int} (h : InRange64 n) : wrap64 n = n := by
  unfold InRange64 int64Min int64Max at h
  unfold wrap64 int64Min twoPow64
  rw [Int.emod_eq_of_lt (by omega) (by omega)]
  omega

theorem wrap64_bounds (n : Int) : InRange64 (wrap64 n) := by
  unfold InRange64 wrap64 int64Min int64Max twoPow64
  constructor <;> omega

theorem wrap64_wrap64 (a : Int) : wrap64 (wrap64 a) = wrap64 a :=
  wrap64_eq_self (wrap64_bounds a)

/-! ### SQLite update characterizations (overflow-checked addition) -/

theorem sqlite_update_present_ok_eq {t : SQLiteRepository} {id : String}
    {v v2 : SessionData} (u : TokenUsage) (h : t.selectRow id = some v)
    (hadd : sqliteAddRow v u = .ok v2) :
    t.updateSessionTokens id u =
      (.ok v2,
       { t with rows :=
           t.rows.map (fun p => if p.1 = id then (p.1, v2) else p) }) := by
  unfold SQLiteRepository.updateSessionTokens
  simp only [h, hadd]

theorem sqlite_update_present_err_eq {t : SQLiteRepository} {id : String}
    {v : SessionData} {e : String} (u : TokenUsage) (h : t.selectRow id = some v)
    (hadd : sqliteAddRow v u = .error e) :
    t.updateSessionTokens id u = (.error e, t) := by
  unfold SQLiteRepository.updateSessionTokens
  simp only [h, hadd]

theorem sqlite_update_absent_eq {t : SQLiteRepository} {id : String}
    (u : TokenUsage) (h : t.selectRow id = none) :
    t.updateSessionTokens id u =
      (.ok { sessionID := id
             totalPromptTokens := u.promptTokens
             totalCompletionTokens := u.completionTokens
             totalTokens := u.totalTokens
             requestCount := 1 },
       { t with rows := t.rows ++
           [(id, { sessionID := id
                   totalPromptTokens := u.promptTokens
                   totalCompletionTokens := u.completionTokens
                   totalTokens := u.totalTokens
                   requestCount := 1 })] }) := by
  unfold SQLiteRepository.updateSessionTokens
  rw [h]

theorem addUsageExact_zero (id : String) (u : TokenUsage) :
    addUsageExact (zeroSession id) u =
      { sessionID := id
        totalPromptTokens := u.promptTokens
        totalCompletionTokens := u.completionTokens
        totalTokens := u.totalTokens
        requestCount := 1 } := by
  simp [addUsageExact, zeroSession]

theorem sqliteAddRow_ok {v : SessionData} {u : TokenUsage}
    (h1 : InRange64 (v.totalPromptTokens + u.promptTokens))
    (h2 : InRange64 (v.totalCompletionTokens + u.completionTokens))
    (h3 : InRange64 (v.totalTokens + u.totalTokens))
    (h4 : InRange64 (v.requestCount + 1)) :
    sqliteAddRow v u = .ok (addUsageExact v u) := by
  unfold sqliteAddRow
  rw [if_pos ⟨h1, h2, h3, h4⟩]

theorem sqlite_update_self (t : SQLiteRepository) (id : String) (u : TokenUsage)
    (h1 : InRange64 ((t.countersOf id).totalPromptTokens + u.promptTokens))
    (h2 : InRange64 ((t.countersOf id).totalCompletionTokens + u.completionTokens))
    (h3 : InRange64 ((t.countersOf id).totalTokens + u.totalTokens))
    (h4 : InRange64 ((t.countersOf id).requestCount + 1)) :
    (t.updateSessionTokens id u).2.selectRow id =
      some (addUsageExact (t.countersOf id) u) ∧
    (t.updateSessionTokens id u).1 = .ok (addUsageExact (t.countersOf id) u) := by
  cases h : t.selectRow id with
  | some v =>
    have hc : t.countersOf id = v := by
      simp [SQLiteRepository.countersOf, h]
    rw [hc] at h1 h2 h3 h4 ⊢
    have hadd := sqliteAddRow_ok h1 h2 h3 h4
    rw [sqlite_update_present_ok_eq u h hadd]
    refine ⟨?_, rfl⟩
    rw [selectRow_def]
    show ((t.rows.map (fun p => if p.1 = id then (p.1, addUsageExact v u) else p)).find?
        (fun p => p.1 = id)).map Prod.snd = _
    rw [find_map_replace]
    rw [selectRow_def] at h
    cases hf : t.rows.find? (fun p => p.1 = id) with
    | none => rw [hf] at h; simp at h
    | some p => simp only [Option.map_some']
  | none =>
    have hc : t.countersOf id = zeroSession id := by
      simp [SQLiteRepository.countersOf, h]
    rw [sqlite_update_absent_eq u h, hc, addUsageExact_zero]
    refine ⟨?_, rfl⟩
    exact sqlite_insert_select _ h

theorem sqlite_update_overflow {t : SQLiteRepository} {id : String}
    {v : SessionData} (u : TokenUsage) (h : t.selectRow id = some v)
    (hout : ¬(InRange64 (v.totalPromptTokens + u.promptTokens) ∧
              InRange64 (v.totalCompletionTokens + u.completionTokens) ∧
              InRange64 (v.totalTokens + u.totalTokens) ∧
              InRange64 (v.requestCount + 1))) :
    (t.updateSessionTokens id u).1 = .error "integer overflow" ∧
    (t.updateSessionTokens id u).2 = t := by
  have hadd : sqliteAddRow v u = .error "integer overflow" := by
    unfold sqliteAddRow
    rw [if_neg hout]
  rw [sqlite_update_present_err_eq u h hadd]
  exact ⟨rfl, rfl⟩

theorem sqlite_update_frame (t : SQLiteRepository) (id : String) (u : TokenUsage)
    {id2 : String} (hne : id2 ≠ id) :
    (t.updateSessionTokens id u).2.selectRow id2 = t.selectRow id2 := by
  cases h : t.selectRow id with
  | some v =>
    cases hadd : sqliteAddRow v u with
    | error e => rw [sqlite_update_present_err_eq u h hadd]
    | ok v2 =>
      rw [sqlite_update_present_ok_eq u h hadd, selectRow_def]
      show ((t.rows.map (fun p => if p.1 = id then (p.1, v2) else p)).find?
          (fun p => p.1 = id2)).map Prod.snd = _
      rw [find_map_replace_ne _ _ hne]
      rfl
  | none =>
    rw [sqlite_update_absent_eq u h]
    exact sqlite_insert_select_ne _ hne

theorem sqlite_update_counters_self (t : SQLiteRepository) (id : String)
    (u : TokenUsage)
    (h1 : InRange64 ((t.countersOf id).totalPromptTokens + u.promptTokens))
    (h2 : InRange64 ((t.countersOf id).totalCompletionTokens + u.completionTokens))
    (h3 : InRange64 ((t.countersOf id).totalTokens + u.totalTokens))
    (h4 : InRange64 ((t.countersOf id).requestCount + 1)) :
    (t.updateSessionTokens id u).2.countersOf id =
      addUsageExact (t.countersOf id) u := by
  unfold SQLiteRepository.countersOf
  rw [(sqlite_update_self t id u h1 h2 h3 h4).1]
  rfl

theorem sqlite_update_counters_frame (t : SQLiteRepository) (id : String)
    (u : TokenUsage) {id2 : String} (hne : id2 ≠ id) :
    (t.updateSessionTokens id u).2.countersOf id2 = t.countersOf id2 := by
  unfold SQLiteRepository.countersOf
  rw [sqlite_update_frame t id u hne]


/-! ### Accumulation across sequences, with int64 semantics -/

theorem sumPrompt_cons (u : TokenUsage) (us : List TokenUsage) :
    sumPrompt (u :: us) = u.promptTokens + sumPrompt us := by
  simp [sumPrompt]

theorem sumCompletion_cons (u : TokenUsage) (us : List TokenUsage) :
    sumCompletion (u :: us) = u.completionTokens + sumCompletion us := by
  simp [sumCompletion]

theorem sumTotal_cons (u : TokenUsage) (us : List TokenUsage) :
    sumTotal (u :: us) = u.totalTokens + sumTotal us := by
  simp [sumTotal]

theorem foldl_addUsage (us : List TokenUsage) :
    ∀ s : SessionData,
      wrap64 s.totalPromptTokens = s.totalPromptTokens →
      wrap64 s.totalCompletionTokens = s.totalCompletionTokens →
      wrap64 s.totalTokens = s.totalTokens →
      wrap64 s.requestCount = s.requestCount →
      us.foldl addUsage s =
        { sessionID := s.sessionID
          totalPromptTokens := wrap64 (s.totalPromptTokens + sumPrompt us)
          totalCompletionTokens :=
            wrap64 (s.totalCompletionTokens + sumCompletion us)
          totalTokens := wrap64 (s.totalTokens + sumTotal us)
          requestCount := wrap64 (s.requestCount + us.length) } := by
  induction us with
  | nil =>
    intro s h1 h2 h3 h4
    cases s
    simp only [List.foldl_nil, sumPrompt, sumCompletion, sumTotal,
      List.map_nil, List.sum_nil, List.length_nil, Nat.cast_zero, add_zero]
    simp_all
  | cons u rest ih =>
    intro s h1 h2 h3 h4
    rw [List.foldl_cons,
      ih (addUsage s u) (wrap64_wrap64 _) (wrap64_wrap64 _) (wrap64_wrap64 _)
        (wrap64_wrap64 _)]
    simp only [addUsage, sumPrompt, sumCompletion, sumTotal, List.map_cons,
      List.sum_cons, List.length_cons, SessionData.mk.injEq]
    refine ⟨trivial, ?_, ?_, ?_, ?_⟩ <;>
      rw [wrap64_add_left] <;> ring_nf
    push_cast
    ring_nf

theorem sqlite_runUpdates_exact (id : String) (us : List TokenUsage) :
    ∀ (t : SQLiteRepository) (s0 : SessionData), t.selectRow id = some s0 →
      (∀ i, i ≤ us.length →
        InRange64 (s0.totalPromptTokens + sumPrompt (us.take i)) ∧
        InRange64 (s0.totalCompletionTokens + sumCompletion (us.take i)) ∧
        InRange64 (s0.totalTokens + sumTotal (us.take i)) ∧
        InRange64 (s0.requestCount + ((us.take i).length : Int))) →
      (t.runUpdates id us).selectRow id =
        some { sessionID := s0.sessionID
               totalPromptTokens := s0.totalPromptTokens + sumPrompt us
               totalCompletionTokens :=
                 s0.totalCompletionTokens + sumCompletion us
               totalTokens := s0.totalTokens + sumTotal us
               requestCount := s0.requestCount + us.length } := by
  induction us with
  | nil =>
    intro t s0 h _
    have : (t.runUpdates id []).selectRow id = some s0 := by
      simpa [SQLiteRepository.runUpdates] using h
    rw [this]
    cases s0
    simp [sumPrompt, sumCompletion, sumTotal]
  | cons u rest ih =>
    intro t s0 h hpre
    have h1 := hpre 1 (by simp)
    simp only [List.take_succ_cons, List.take_zero, sumPrompt, sumCompletion,
      sumTotal, List.map_cons, List.map_nil, List.sum_cons, List.sum_nil,
      List.length_cons, List.length_nil, Nat.cast_one, add_zero,
      Nat.cast_zero] at h1
    have hc : t.countersOf id = s0 := by
      simp [SQLiteRepository.countersOf, h]
    have hsel : (t.updateSessionTokens id u).2.selectRow id =
        some (addUsageExact s0 u) := by
      have hself := (sqlite_update_self t id u (by rw [hc]; exact h1.1)
        (by rw [hc]; exact h1.2.1) (by rw [hc]; exact h1.2.2.1)
        (by rw [hc]; exact h1.2.2.2)).1
      rw [hc] at hself
      exact hself
    have hrec := ih (t.updateSessionTokens id u).2 (addUsageExact s0 u) hsel ?_
    · have hrun : t.runUpdates id (u :: rest) =
          (t.updateSessionTokens id u).2.runUpdates id rest := by
        simp [SQLiteRepository.runUpdates]
      rw [hrun, hrec]
      simp only [addUsageExact, sumPrompt, sumCompletion, sumTotal,
        List.map_cons, List.sum_cons, List.length_cons, Option.some.injEq,
        SessionData.mk.injEq]
      refine ⟨trivial, by ring, by ring, by ring, ?_⟩
      push_cast
      ring
    · intro i hi
      have h2 := hpre (i + 1) (by simpa using Nat.succ_le_succ hi)
      simp only [List.take_succ_cons, sumPrompt_cons, sumCompletion_cons,
        sumTotal_cons, List.length_cons] at h2
      simp only [addUsageExact]
      unfold InRange64 at h2 ⊢
      push_cast at h2 ⊢
      refine ⟨⟨?_, ?_⟩, ⟨?_, ?_⟩, ⟨?_, ?_⟩, ⟨?_, ?_⟩⟩ <;> omega


theorem runUpdates_from_absent {r : MemoryRepository} (hWf : r.Wf)
    {id : String} (habs : r.view id = none) (u : TokenUsage)
    (us : List TokenUsage) :
    (r.runUpdates id (u :: us)).view id =
      some { sessionID := id
             totalPromptTokens := wrap64 (sumPrompt (u :: us))
             totalCompletionTokens := wrap64 (sumCompletion (u :: us))
             totalTokens := wrap64 (sumTotal (u :: us))
             requestCount := wrap64 (((u :: us).length : Int)) } := by
  have h1 : (r.updateSessionTokens id u).2.view id =
      some (addUsage (zeroSession id) u) := by
    rw [update_view_self hWf]
    simp [MemoryRepository.countersOf, habs]
  have h2 := runUpdates_view id us (r.updateSessionTokens id u).2
    (update_wf hWf id u) _ h1
  have h3 : r.runUpdates id (u :: us) =
      (r.updateSessionTokens id u).2.runUpdates id us := by
    simp [MemoryRepository.runUpdates]
  rw [h3, h2, foldl_addUsage us (addUsage (zeroSession id) u)
    (wrap64_wrap64 _) (wrap64_wrap64 _) (wrap64_wrap64 _) (wrap64_wrap64 _)]
  simp only [addUsage, zeroSession, sumPrompt_cons, sumCompletion_cons,
    sumTotal_cons, List.length_cons, Option.some.injEq, SessionData.mk.injEq]
  refine ⟨trivial, ?_, ?_, ?_, ?_⟩ <;> rw [wrap64_add_left] <;> push_cast <;>
    ring_nf

/-- C1 counterexample: accumulation uses Go int arithmetic, which
wraps to int64 (and SQLite's server-side addition errors) on overflow,
so the stored counters do not equal the exact elementwise sums for
every usage sequence: two usages with totals int64Max and 1 leave the
memory backend's stored total at int64Min, not int64Max + 1, and the
same addition on the SQLite backend fails with an integer-overflow
error. -/
theorem accumulate_overflow_counterexample :
    ((MemoryRepository.new.runUpdates "s"
        [⟨0, 0, 9223372036854775807⟩, ⟨0, 0, 1⟩]).countersOf "s").totalTokens =
      -9223372036854775808 ∧
    sumTotal [⟨0, 0, 9223372036854775807⟩, ⟨0, 0, 1⟩] = 9223372036854775808 ∧
    ¬(((MemoryRepository.new.runUpdates "s"
        [⟨0, 0, 9223372036854775807⟩, ⟨0, 0, 1⟩]).countersOf "s").totalTokens =
      sumTotal [⟨0, 0, 9223372036854775807⟩, ⟨0, 0, 1⟩]) ∧
    (({ rows := [("s", ⟨"s", 0, 0, 9223372036854775807, 1⟩)],
        dbOpen := true } : SQLiteRepository).updateSessionTokens
        "s" ⟨0, 0, 1⟩).1 = .error "integer overflow" := by
  have h1 : ((MemoryRepository.new.runUpdates "s"
      [⟨0, 0, 9223372036854775807⟩, ⟨0, 0, 1⟩]).countersOf "s").totalTokens =
      -9223372036854775808 := by decide
  have h2 : sumTotal [⟨0, 0, 9223372036854775807⟩, ⟨0, 0, 1⟩] =
      9223372036854775808 := by decide
  refine ⟨h1, h2, ?_, rfl⟩
  intro h
  rw [h1, h2] at h
  norm_num at h

/-- C1 (amended): accumulate on either backend adds the usage's three
counters and increments request_count by 1 in int64 arithmetic and
returns the post-update Session; from an absent id, after N calls the
memory backend stores the elementwise sums wrapped to int64 —
the exact sums whenever those fit in int64 — with request_count = N
wrapped, and the SQLite backend, whenever every intermediate sum fits
in int64, succeeds on every call and stores the exact elementwise sums
with request_count = N, while an overflowing server-side addition
fails with an integer-overflow error and leaves the session unchanged. -/
theorem accumulate_sums :
    (∀ (s : SessionData) (u : TokenUsage),
      (addUsage s u).totalPromptTokens =
        wrap64 (s.totalPromptTokens + u.promptTokens) ∧
      (addUsage s u).totalCompletionTokens =
        wrap64 (s.totalCompletionTokens + u.completionTokens) ∧
      (addUsage s u).totalTokens = wrap64 (s.totalTokens + u.totalTokens) ∧
      (addUsage s u).requestCount = wrap64 (s.requestCount + 1)) ∧
    (∀ (r : MemoryRepository) (id : String) (u : TokenUsage), r.Wf →
      (r.updateSessionTokens id u).2.view id =
        some (addUsage (r.countersOf id) u) ∧
      (r.updateSessionTokens id u).2.mem.read (r.updateSessionTokens id u).1 =
        some (addUsage (r.countersOf id) u)) ∧
    (∀ (r : MemoryRepository) (id : String) (u : TokenUsage)
        (us : List TokenUsage), r.Wf → r.view id = none →
      (r.runUpdates id (u :: us)).view id =
        some { sessionID := id
               totalPromptTokens := wrap64 (sumPrompt (u :: us))
               totalCompletionTokens := wrap64 (sumCompletion (u :: us))
               totalTokens := wrap64 (sumTotal (u :: us))
               requestCount := wrap64 (((u :: us).length : Int)) } ∧
      (InRange64 (sumPrompt (u :: us)) → InRange64 (sumCompletion (u :: us)) →
       InRange64 (sumTotal (u :: us)) → InRange64 (((u :: us).length : Int)) →
       (r.runUpdates id (u :: us)).view id =
         some { sessionID := id
                totalPromptTokens := sumPrompt (u :: us)
                totalCompletionTokens := sumCompletion (u :: us)
                totalTokens := sumTotal (u :: us)
                requestCount := (((u :: us).length : Int)) })) ∧
    (∀ (t : SQLiteRepository) (id : String) (u : TokenUsage),
      InRange64 ((t.countersOf id).totalPromptTokens + u.promptTokens) →
      InRange64 ((t.countersOf id).totalCompletionTokens + u.completionTokens) →
      InRange64 ((t.countersOf id).totalTokens + u.totalTokens) →
      InRange64 ((t.countersOf id).requestCount + 1) →
      (t.updateSessionTokens id u).2.selectRow id =
        some (addUsageExact (t.countersOf id) u) ∧
      (t.updateSessionTokens id u).1 =
        .ok (addUsageExact (t.countersOf id) u)) ∧
    (∀ (t : SQLiteRepository) (id : String) (u : TokenUsage)
        (v : SessionData), t.selectRow id = some v →
      ¬(InRange64 (v.totalPromptTokens + u.promptTokens) ∧
        InRange64 (v.totalCompletionTokens + u.completionTokens) ∧
        InRange64 (v.totalTokens + u.totalTokens) ∧
        InRange64 (v.requestCount + 1)) →
      (t.updateSessionTokens id u).1 = .error "integer overflow" ∧
      (t.updateSessionTokens id u).2 = t) ∧
    (∀ (t : SQLiteRepository) (id : String) (u : TokenUsage)
        (us : List TokenUsage), t.selectRow id = none →
      (∀ i, i ≤ (u :: us).length →
        InRange64 (sumPrompt ((u :: us).take i)) ∧
        InRange64 (sumCompletion ((u :: us).take i)) ∧
        InRange64 (sumTotal ((u :: us).take i)) ∧
        InRange64 ((((u :: us).take i).length : Int))) →
      (t.runUpdates id (u :: us)).selectRow id =
        some { sessionID := id
               totalPromptTokens := sumPrompt (u :: us)
               totalCompletionTokens := sumCompletion (u :: us)
               totalTokens := sumTotal (u :: us)
               requestCount := (((u :: us).length : Int)) }) := by
  refine ⟨fun s u => ⟨rfl, rfl, rfl, rfl⟩, ?_, ?_, ?_, ?_, ?_⟩
  · intro r id u hWf
    exact ⟨update_view_self hWf id u, update_returned id u⟩
  · intro r id u us hWf habs
    refine ⟨runUpdates_from_absent hWf habs u us, ?_⟩
    intro hp hc ht hn
    rw [runUpdates_from_absent hWf habs u us, wrap64_eq_self hp,
      wrap64_eq_self hc, wrap64_eq_self ht, wrap64_eq_self hn]
  · intro t id u h1 h2 h3 h4
    exact sqlite_update_self t id u h1 h2 h3 h4
  · intro t id u v h hout
    exact sqlite_update_overflow u h hout
  · intro t id u us habs hpre
    have h1 := hpre 1 (by simp)
    simp only [List.take_succ_cons, List.take_zero, sumPrompt_cons,
      sumCompletion_cons, sumTotal_cons, List.length_cons, List.length_nil,
      sumPrompt, sumCompletion, sumTotal, List.map_nil, List.sum_nil,
      add_zero, Nat.cast_one] at h1
    have hup := sqlite_update_absent_eq u habs
    have hsel : (t.updateSessionTokens id u).2.selectRow id =
        some (addUsageExact (zeroSession id) u) := by
      rw [hup, addUsageExact_zero]
      exact sqlite_insert_select _ habs
    have hrec := sqlite_runUpdates_exact id us (t.updateSessionTokens id u).2
      (addUsageExact (zeroSession id) u) hsel ?_
    · have hrun : t.runUpdates id (u :: us) =
          (t.updateSessionTokens id u).2.runUpdates id us := by
        simp [SQLiteRepository.runUpdates]
      rw [hrun, hrec]
      simp only [addUsageExact, zeroSession, sumPrompt_cons, sumCompletion_cons,
        sumTotal_cons, List.length_cons, Option.some.injEq, SessionData.mk.injEq]
      refine ⟨trivial, by ring, by ring, by ring, ?_⟩
      push_cast
      ring
    · intro i hi
      have h2 := hpre (i + 1) (by simpa using Nat.succ_le_succ hi)
      simp only [List.take_succ_cons, sumPrompt_cons, sumCompletion_cons,
        sumTotal_cons, List.length_cons] at h2
      simp only [addUsageExact, zeroSession]
      unfold InRange64 at h2 ⊢
      push_cast at h2 ⊢
      refine ⟨⟨?_, ?_⟩, ⟨?_, ?_⟩, ⟨?_, ?_⟩, ⟨?_, ?_⟩⟩ <;> omega

/-- Witness for accumulate_sums: the in-range usage sequence (1,2,3),
(4,5,9) applied to the absent id "s" on both fresh backends leaves the
session at exactly (5, 7, 12) with request_count 2. -/
theorem accumulate_sums_witness :
    (MemoryRepository.new.runUpdates "s"
        [⟨1, 2, 3⟩, ⟨4, 5, 9⟩]).view "s" =
      some { sessionID := "s"
             totalPromptTokens := 5
             totalCompletionTokens := 7
             totalTokens := 12
             requestCount := 2 } ∧
    (({ rows := [], dbOpen := true } : SQLiteRepository).runUpdates "s"
        [⟨1, 2, 3⟩, ⟨4, 5, 9⟩]).selectRow "s" =
      some { sessionID := "s"
             totalPromptTokens := 5
             totalCompletionTokens := 7
             totalTokens := 12
             requestCount := 2 } := by
  constructor
  · have h := (accumulate_sums.2.2.1 MemoryRepository.new "s"
      ⟨1, 2, 3⟩ [⟨4, 5, 9⟩] wf_new rfl).2
      (by decide) (by decide) (by decide) (by decide)
    simpa [sumPrompt, sumCompletion, sumTotal] using h
  · have h := accumulate_sums.2.2.2.2.2 { rows := [], dbOpen := true } "s"
      ⟨1, 2, 3⟩ [⟨4, 5, 9⟩] rfl (by decide)
    simpa [sumPrompt, sumCompletion, sumTotal] using h


/-! ### Per-session sums over operation sequences -/

theorem usagesFor_append (id : String) (l1 l2 : List RepoOp) :
    usagesFor id (l1 ++ l2) = usagesFor id l1 ++ usagesFor id l2 := by
  simp [usagesFor]

theorem sumPrompt_append (a b : List TokenUsage) :
    sumPrompt (a ++ b) = sumPrompt a + sumPrompt b := by
  simp [sumPrompt]

theorem sumCompletion_append (a b : List TokenUsage) :
    sumCompletion (a ++ b) = sumCompletion a + sumCompletion b := by
  simp [sumCompletion]

theorem sumTotal_append (a b : List TokenUsage) :
    sumTotal (a ++ b) = sumTotal a + sumTotal b := by
  simp [sumTotal]

theorem usagesFor_nonneg {id : String} {ops : List RepoOp}
    (h : ∀ op ∈ ops, op.Nonneg) : ∀ u ∈ usagesFor id ops, u.Nonneg := by
  intro u hu
  unfold usagesFor at hu
  obtain ⟨op, hop, hmap⟩ := List.mem_filterMap.mp hu
  cases op with
  | create _ => simp at hmap
  | update id2 u2 =>
    have hn := h _ hop
    by_cases hEq : id2 = id
    · simp only [if_pos hEq, Option.some.injEq] at hmap
      exact hmap ▸ hn
    · simp [hEq] at hmap

theorem sumPrompt_nonneg {us : List TokenUsage}
    (h : ∀ u ∈ us, u.Nonneg) : 0 ≤ sumPrompt us := by
  apply List.sum_nonneg
  intro x hx
  obtain ⟨u, hu, hxu⟩ := List.mem_map.mp hx
  exact hxu ▸ (h u hu).1

theorem sumCompletion_nonneg {us : List TokenUsage}
    (h : ∀ u ∈ us, u.Nonneg) : 0 ≤ sumCompletion us := by
  apply List.sum_nonneg
  intro x hx
  obtain ⟨u, hu, hxu⟩ := List.mem_map.mp hx
  exact hxu ▸ (h u hu).2.1

theorem sumTotal_nonneg {us : List TokenUsage}
    (h : ∀ u ∈ us, u.Nonneg) : 0 ≤ sumTotal us := by
  apply List.sum_nonneg
  intro x hx
  obtain ⟨u, hu, hxu⟩ := List.mem_map.mp hx
  exact hxu ▸ (h u hu).2.2

theorem usagesFor_cons_update_self (id : String) (u : TokenUsage)
    (rest : List RepoOp) :
    usagesFor id (RepoOp.update id u :: rest) = u :: usagesFor id rest := by
  simp [usagesFor]

theorem usagesFor_cons_update_ne {id id2 : String} (hne : ¬(id2 = id))
    (u : TokenUsage) (rest : List RepoOp) :
    usagesFor id (RepoOp.update id2 u :: rest) = usagesFor id rest := by
  simp [usagesFor, hne]

theorem usagesFor_cons_create (id id2 : String) (rest : List RepoOp) :
    usagesFor id (RepoOp.create id2 :: rest) = usagesFor id rest := by
  simp [usagesFor]


theorem runOps_exact_mem_aux (id : String) (ops : List RepoOp) :
    ∀ r : MemoryRepository, r.Wf →
      (∀ op ∈ ops, op.Nonneg) →
      (r.countersOf id).Nonneg →
      (r.countersOf id).totalPromptTokens + sumPrompt (usagesFor id ops) ≤
        int64Max →
      (r.countersOf id).totalCompletionTokens +
        sumCompletion (usagesFor id ops) ≤ int64Max →
      (r.countersOf id).totalTokens + sumTotal (usagesFor id ops) ≤ int64Max →
      (r.countersOf id).requestCount + ((usagesFor id ops).length : Int) ≤
        int64Max →
      ((r.runOps ops).countersOf id).totalPromptTokens =
          (r.countersOf id).totalPromptTokens + sumPrompt (usagesFor id ops) ∧
      ((r.runOps ops).countersOf id).totalCompletionTokens =
          (r.countersOf id).totalCompletionTokens +
            sumCompletion (usagesFor id ops) ∧
      ((r.runOps ops).countersOf id).totalTokens =
          (r.countersOf id).totalTokens + sumTotal (usagesFor id ops) ∧
      ((r.runOps ops).countersOf id).requestCount =
          (r.countersOf id).requestCount + ((usagesFor id ops).length : Int) := by
  induction ops with
  | nil =>
    intro r _ _ _ _ _ _ _
    simp [MemoryRepository.runOps, usagesFor, sumPrompt, sumCompletion, sumTotal]
  | cons op rest ih =>
    intro r hWf hnn hn hb1 hb2 hb3 hb4
    have hrun : r.runOps (op :: rest) = (r.applyOp op).runOps rest := by
      simp [MemoryRepository.runOps]
    have hnnrest : ∀ o ∈ rest, RepoOp.Nonneg o :=
      fun o ho => hnn o (List.mem_cons_of_mem _ ho)
    have hrestnn := @usagesFor_nonneg id _ hnnrest
    have hsp := sumPrompt_nonneg hrestnn
    have hsc := sumCompletion_nonneg hrestnn
    have hst := sumTotal_nonneg hrestnn
    cases op with
    | create id2 =>
      have hcf : (r.applyOp (.create id2)).countersOf id = r.countersOf id := by
        by_cases hEq : id = id2
        · subst hEq
          exact create_counters_stable hWf id
        · exact create_counters_frame hWf id2 hEq
      have hus := usagesFor_cons_create id id2 rest
      rw [hus] at hb1 hb2 hb3 hb4 ⊢
      have hWf2 : (r.applyOp (.create id2)).Wf := applyOp_wf hWf _
      have := ih (r.applyOp (.create id2)) hWf2 hnnrest (hcf ▸ hn)
        (hcf ▸ hb1) (hcf ▸ hb2) (hcf ▸ hb3) (hcf ▸ hb4)
      rw [hrun]
      rw [hcf] at this
      exact this
    | update id2 u =>
      by_cases hEq : id2 = id
      · subst hEq
        have hu : u.Nonneg := hnn _ (List.mem_cons_self _ _)
        have hus := usagesFor_cons_update_self id2 u rest
        simp only [hus, sumPrompt_cons, sumCompletion_cons, sumTotal_cons,
          List.length_cons] at hb1 hb2 hb3 hb4 ⊢
        push_cast at hb4 ⊢
        have hin1 : InRange64 ((r.countersOf id2).totalPromptTokens +
            u.promptTokens) := by
          unfold InRange64 int64Min int64Max
          unfold int64Max at hb1
          constructor
          · have := hn.1
            have := hu.1
            omega
          · omega
        have hin2 : InRange64 ((r.countersOf id2).totalCompletionTokens +
            u.completionTokens) := by
          unfold InRange64 int64Min int64Max
          unfold int64Max at hb2
          constructor
          · have := hn.2.1
            have := hu.2.1
            omega
          · omega
        have hin3 : InRange64 ((r.countersOf id2).totalTokens +
            u.totalTokens) := by
          unfold InRange64 int64Min int64Max
          unfold int64Max at hb3
          constructor
          · have := hn.2.2.1
            have := hu.2.2
            omega
          · omega
        have hin4 : InRange64 ((r.countersOf id2).requestCount + 1) := by
          unfold InRange64 int64Min int64Max
          unfold int64Max at hb4
          constructor
          · have := hn.2.2.2
            omega
          · have hlen : (0 : Int) ≤ ((usagesFor id2 rest).length : Int) := by
              positivity
            omega
        have hcf : (r.applyOp (.update id2 u)).countersOf id2 =
            addUsageExact (r.countersOf id2) u := by
          show (r.updateSessionTokens id2 u).2.countersOf id2 = _
          rw [update_counters_self hWf id2 u]
          simp only [addUsage, addUsageExact, SessionData.mk.injEq]
          exact ⟨trivial, wrap64_eq_self hin1, wrap64_eq_self hin2,
            wrap64_eq_self hin3, wrap64_eq_self hin4⟩
        have hWf2 : (r.applyOp (.update id2 u)).Wf := applyOp_wf hWf _
        have hn2 : ((r.applyOp (.update id2 u)).countersOf id2).Nonneg := by
          rw [hcf]
          exact ⟨by have := hn.1; have := hu.1; simp [addUsageExact]; omega,
            by have := hn.2.1; have := hu.2.1; simp [addUsageExact]; omega,
            by have := hn.2.2.1; have := hu.2.2; simp [addUsageExact]; omega,
            by have := hn.2.2.2; simp [addUsageExact]; omega⟩
        have := ih (r.applyOp (.update id2 u)) hWf2 hnnrest hn2
          (by rw [hcf]; simp only [addUsageExact]; omega)
          (by rw [hcf]; simp only [addUsageExact]; omega)
          (by rw [hcf]; simp only [addUsageExact]; omega)
          (by rw [hcf]; simp only [addUsageExact]; push_cast; omega)
        rw [hrun]
        rw [hcf] at this
        simp only [addUsageExact] at this
        obtain ⟨e1, e2, e3, e4⟩ := this
        refine ⟨by rw [e1]; ring, by rw [e2]; ring, by rw [e3]; ring, ?_⟩
        rw [e4]
        push_cast
        ring
      · have hne : id ≠ id2 := fun hEq2 => hEq hEq2.symm
        have hcf : (r.applyOp (.update id2 u)).countersOf id =
            r.countersOf id := by
          show (r.updateSessionTokens id2 u).2.countersOf id = _
          exact update_counters_frame hWf id2 u hne
        have hus := usagesFor_cons_update_ne hEq u rest
        rw [hus] at hb1 hb2 hb3 hb4 ⊢
        have hWf2 : (r.applyOp (.update id2 u)).Wf := applyOp_wf hWf _
        have := ih (r.applyOp (.update id2 u)) hWf2 hnnrest (hcf ▸ hn)
          (hcf ▸ hb1) (hcf ▸ hb2) (hcf ▸ hb3) (hcf ▸ hb4)
        rw [hrun]
        rw [hcf] at this
        exact this


theorem runOps_exact_sqlite_aux (id : String) (ops : List RepoOp) :
    ∀ t : SQLiteRepository,
      (∀ op ∈ ops, op.Nonneg) →
      (t.countersOf id).Nonneg →
      (t.countersOf id).totalPromptTokens + sumPrompt (usagesFor id ops) ≤
        int64Max →
      (t.countersOf id).totalCompletionTokens +
        sumCompletion (usagesFor id ops) ≤ int64Max →
      (t.countersOf id).totalTokens + sumTotal (usagesFor id ops) ≤ int64Max →
      (t.countersOf id).requestCount + ((usagesFor id ops).length : Int) ≤
        int64Max →
      ((t.runOps ops).countersOf id).totalPromptTokens =
          (t.countersOf id).totalPromptTokens + sumPrompt (usagesFor id ops) ∧
      ((t.runOps ops).countersOf id).totalCompletionTokens =
          (t.countersOf id).totalCompletionTokens +
            sumCompletion (usagesFor id ops) ∧
      ((t.runOps ops).countersOf id).totalTokens =
          (t.countersOf id).totalTokens + sumTotal (usagesFor id ops) ∧
      ((t.runOps ops).countersOf id).requestCount =
          (t.countersOf id).requestCount + ((usagesFor id ops).length : Int) := by
  induction ops with
  | nil =>
    intro t _ _ _ _ _ _
    simp [SQLiteRepository.runOps, usagesFor, sumPrompt, sumCompletion, sumTotal]
  | cons op rest ih =>
    intro t hnn hn hb1 hb2 hb3 hb4
    have hrun : t.runOps (op :: rest) = (t.applyOp op).runOps rest := by
      simp [SQLiteRepository.runOps]
    have hnnrest : ∀ o ∈ rest, RepoOp.Nonneg o :=
      fun o ho => hnn o (List.mem_cons_of_mem _ ho)
    have hrestnn := @usagesFor_nonneg id _ hnnrest
    have hsp := sumPrompt_nonneg hrestnn
    have hsc := sumCompletion_nonneg hrestnn
    have hst := sumTotal_nonneg hrestnn
    cases op with
    | create id2 =>
      have hcf : (t.applyOp (.create id2)).countersOf id = t.countersOf id := by
        by_cases hEq : id = id2
        · subst hEq
          exact sqlite_create_counters_stable t id
        · exact sqlite_create_counters_frame t id2 hEq
      have hus := usagesFor_cons_create id id2 rest
      rw [hus] at hb1 hb2 hb3 hb4 ⊢
      have := ih (t.applyOp (.create id2)) hnnrest (hcf ▸ hn)
        (hcf ▸ hb1) (hcf ▸ hb2) (hcf ▸ hb3) (hcf ▸ hb4)
      rw [hrun]
      rw [hcf] at this
      exact this
    | update id2 u =>
      by_cases hEq : id2 = id
      · subst hEq
        have hu : u.Nonneg := hnn _ (List.mem_cons_self _ _)
        have hus := usagesFor_cons_update_self id2 u rest
        simp only [hus, sumPrompt_cons, sumCompletion_cons, sumTotal_cons,
          List.length_cons] at hb1 hb2 hb3 hb4 ⊢
        push_cast at hb4 ⊢
        have hin1 : InRange64 ((t.countersOf id2).totalPromptTokens +
            u.promptTokens) := by
          unfold InRange64 int64Min int64Max
          unfold int64Max at hb1
          constructor
          · have := hn.1
            have := hu.1
            omega
          · omega
        have hin2 : InRange64 ((t.countersOf id2).totalCompletionTokens +
            u.completionTokens) := by
          unfold InRange64 int64Min int64Max
          unfold int64Max at hb2
          constructor
          · have := hn.2.1
            have := hu.2.1
            omega
          · omega
        have hin3 : InRange64 ((t.countersOf id2).totalTokens +
            u.totalTokens) := by
          unfold InRange64 int64Min int64Max
          unfold int64Max at hb3
          constructor
          · have := hn.2.2.1
            have := hu.2.2
            omega
          · omega
        have hin4 : InRange64 ((t.countersOf id2).requestCount + 1) := by
          unfold InRange64 int64Min int64Max
          unfold int64Max at hb4
          constructor
          · have := hn.2.2.2
            omega
          · have hlen : (0 : Int) ≤ ((usagesFor id2 rest).length : Int) := by
              positivity
            omega
        have hcf : (t.applyOp (.update id2 u)).countersOf id2 =
            addUsageExact (t.countersOf id2) u := by
          show (t.updateSessionTokens id2 u).2.countersOf id2 = _
          exact sqlite_update_counters_self t id2 u hin1 hin2 hin3 hin4
        have hn2 : ((t.applyOp (.update id2 u)).countersOf id2).Nonneg := by
          rw [hcf]
          exact ⟨by have := hn.1; have := hu.1; simp [addUsageExact]; omega,
            by have := hn.2.1; have := hu.2.1; simp [addUsageExact]; omega,
            by have := hn.2.2.1; have := hu.2.2; simp [addUsageExact]; omega,
            by have := hn.2.2.2; simp [addUsageExact]; omega⟩
        have := ih (t.applyOp (.update id2 u)) hnnrest hn2
          (by rw [hcf]; simp only [addUsageExact]; omega)
          (by rw [hcf]; simp only [addUsageExact]; omega)
          (by rw [hcf]; simp only [addUsageExact]; omega)
          (by rw [hcf]; simp only [addUsageExact]; push_cast; omega)
        rw [hrun]
        rw [hcf] at this
        simp only [addUsageExact] at this
        obtain ⟨e1, e2, e3, e4⟩ := this
        refine ⟨by rw [e1]; ring, by rw [e2]; ring, by rw [e3]; ring, ?_⟩
        rw [e4]
        push_cast
        ring
      · have hne : id ≠ id2 := fun hEq2 => hEq hEq2.symm
        have hcf : (t.applyOp (.update id2 u)).countersOf id =
            t.countersOf id := by
          show (t.updateSessionTokens id2 u).2.countersOf id = _
          exact sqlite_update_counters_frame t id2 u hne
        have hus := usagesFor_cons_update_ne hEq u rest
        rw [hus] at hb1 hb2 hb3 hb4 ⊢
        have := ih (t.applyOp (.update id2 u)) hnnrest (hcf ▸ hn)
          (hcf ▸ hb1) (hcf ▸ hb2) (hcf ▸ hb3) (hcf ▸ hb4)
        rw [hrun]
        rw [hcf] at this
        exact this


theorem sums_take_le (id : String) {ops : List RepoOp}
    (hnn : ∀ op ∈ ops, op.Nonneg) (i : Nat) :
    sumPrompt (usagesFor id (ops.take i)) ≤ sumPrompt (usagesFor id ops) ∧
    sumCompletion (usagesFor id (ops.take i)) ≤
      sumCompletion (usagesFor id ops) ∧
    sumTotal (usagesFor id (ops.take i)) ≤ sumTotal (usagesFor id ops) ∧
    ((usagesFor id (ops.take i)).length : Int) ≤
      ((usagesFor id ops).length : Int) := by
  have hsplit : ops = ops.take i ++ ops.drop i := (List.take_append_drop i ops).symm
  have hdnn : ∀ op ∈ ops.drop i, RepoOp.Nonneg op := by
    intro op ho
    exact hnn op (List.mem_of_mem_drop ho)
  have hdu := @usagesFor_nonneg id _ hdnn
  have h1 := sumPrompt_nonneg hdu
  have h2 := sumCompletion_nonneg hdu
  have h3 := sumTotal_nonneg hdu
  refine ⟨?_, ?_, ?_, ?_⟩ <;>
    · conv_rhs => rw [hsplit]
      simp only [usagesFor_append, sumPrompt_append, sumCompletion_append,
        sumTotal_append, List.length_append]
      push_cast
      omega

theorem mem_prefix_counters (id : String) {ops : List RepoOp}
    (hnn : ∀ op ∈ ops, op.Nonneg)
    (hb1 : sumPrompt (usagesFor id ops) ≤ int64Max)
    (hb2 : sumCompletion (usagesFor id ops) ≤ int64Max)
    (hb3 : sumTotal (usagesFor id ops) ≤ int64Max)
    (hb4 : ((usagesFor id ops).length : Int) ≤ int64Max) (i : Nat) :
    ((MemoryRepository.new.runOps (ops.take i)).countersOf id).totalPromptTokens
        = sumPrompt (usagesFor id (ops.take i)) ∧
    ((MemoryRepository.new.runOps (ops.take i)).countersOf
        id).totalCompletionTokens
        = sumCompletion (usagesFor id (ops.take i)) ∧
    ((MemoryRepository.new.runOps (ops.take i)).countersOf id).totalTokens
        = sumTotal (usagesFor id (ops.take i)) ∧
    ((MemoryRepository.new.runOps (ops.take i)).countersOf id).requestCount
        = ((usagesFor id (ops.take i)).length : Int) := by
  have htle := sums_take_le id hnn i
  have hnn2 : ∀ op ∈ ops.take i, RepoOp.Nonneg op :=
    fun op ho => hnn op (List.mem_of_mem_take ho)
  have h := runOps_exact_mem_aux id (ops.take i) MemoryRepository.new wf_new
    hnn2
    (by rw [countersOf_new]; exact zeroSession_nonneg id)
    (by rw [countersOf_new]; simp only [zeroSession]; omega)
    (by rw [countersOf_new]; simp only [zeroSession]; omega)
    (by rw [countersOf_new]; simp only [zeroSession]; omega)
    (by rw [countersOf_new]; simp only [zeroSession]; omega)
  simp only [countersOf_new, zeroSession, zero_add] at h
  exact h

theorem sqlite_countersOf_new (id : String) :
    (({ rows := [], dbOpen := true } : SQLiteRepository).countersOf id) =
      zeroSession id := rfl

theorem sqlite_prefix_counters (id : String) {ops : List RepoOp}
    (hnn : ∀ op ∈ ops, op.Nonneg)
    (hb1 : sumPrompt (usagesFor id ops) ≤ int64Max)
    (hb2 : sumCompletion (usagesFor id ops) ≤ int64Max)
    (hb3 : sumTotal (usagesFor id ops) ≤ int64Max)
    (hb4 : ((usagesFor id ops).length : Int) ≤ int64Max) (i : Nat) :
    ((({ rows := [], dbOpen := true } : SQLiteRepository).runOps
        (ops.take i)).countersOf id).totalPromptTokens
        = sumPrompt (usagesFor id (ops.take i)) ∧
    ((({ rows := [], dbOpen := true } : SQLiteRepository).runOps
        (ops.take i)).countersOf id).totalCompletionTokens
        = sumCompletion (usagesFor id (ops.take i)) ∧
    ((({ rows := [], dbOpen := true } : SQLiteRepository).runOps
        (ops.take i)).countersOf id).totalTokens
        = sumTotal (usagesFor id (ops.take i)) ∧
    ((({ rows := [], dbOpen := true } : SQLiteRepository).runOps
        (ops.take i)).countersOf id).requestCount
        = ((usagesFor id (ops.take i)).length : Int) := by
  have htle := sums_take_le id hnn i
  have hnn2 : ∀ op ∈ ops.take i, RepoOp.Nonneg op :=
    fun op ho => hnn op (List.mem_of_mem_take ho)
  have h := runOps_exact_sqlite_aux id (ops.take i)
    { rows := [], dbOpen := true } hnn2
    (by rw [sqlite_countersOf_new]; exact zeroSession_nonneg id)
    (by rw [sqlite_countersOf_new]; simp only [zeroSession]; omega)
    (by rw [sqlite_countersOf_new]; simp only [zeroSession]; omega)
    (by rw [sqlite_countersOf_new]; simp only [zeroSession]; omega)
    (by rw [sqlite_countersOf_new]; simp only [zeroSession]; omega)
  simp only [sqlite_countersOf_new, zeroSession, zero_add] at h
  exact h


/-- C8 counterexample to the literal claim: usages are Go ints and
neither backend validates them, so a single accumulate with usage
(0, 0, -5) on a fresh store leaves total_tokens = -5 on both backends:
negative, and strictly below its previous value 0, refuting both the
non-negativity and the monotonicity clauses. -/
theorem counters_negative_counterexample :
    ((MemoryRepository.new.runOps
        [RepoOp.update "s" ⟨0, 0, -5⟩]).countersOf "s").totalTokens = -5 ∧
    ((({ rows := [], dbOpen := true } : SQLiteRepository).runOps
        [RepoOp.update "s" ⟨0, 0, -5⟩]).countersOf "s").totalTokens = -5 := by
  constructor
  · decide
  · rfl

/-- C8 (amended): restricted to operation sequences whose usages are
non-negative and whose per-id elementwise sums (and operation count)
fit in int64 — so no Go int64 wrap occurs on the memory backend and no
overflow error on the SQLite backend — the invariant holds on both
backends: for every session id the stored counters are pointwise
non-decreasing from each operation prefix to the next, all four
counters are non-negative at every prefix, and the final stored
total_tokens equals the sum of the usage.total values applied to that
id. -/
theorem counters_invariant_amended (id : String) (ops : List RepoOp)
    (hnn : ∀ op ∈ ops, op.Nonneg)
    (hb1 : sumPrompt (usagesFor id ops) ≤ int64Max)
    (hb2 : sumCompletion (usagesFor id ops) ≤ int64Max)
    (hb3 : sumTotal (usagesFor id ops) ≤ int64Max)
    (hb4 : ((usagesFor id ops).length : Int) ≤ int64Max) :
    (∀ i : Nat, ((MemoryRepository.new.runOps (ops.take i)).countersOf id).le
        ((MemoryRepository.new.runOps (ops.take (i+1))).countersOf id)) ∧
    (∀ i : Nat,
        ((MemoryRepository.new.runOps (ops.take i)).countersOf id).Nonneg) ∧
    ((MemoryRepository.new.runOps ops).countersOf id).totalTokens =
        sumTotal (usagesFor id ops) ∧
    (∀ i : Nat, ((({ rows := [], dbOpen := true } : SQLiteRepository).runOps
        (ops.take i)).countersOf id).le
        ((({ rows := [], dbOpen := true } : SQLiteRepository).runOps
          (ops.take (i+1))).countersOf id)) ∧
    (∀ i : Nat, ((({ rows := [], dbOpen := true } : SQLiteRepository).runOps
        (ops.take i)).countersOf id).Nonneg) ∧
    ((({ rows := [], dbOpen := true } : SQLiteRepository).runOps
        ops).countersOf id).totalTokens = sumTotal (usagesFor id ops) := by
  have hstep : ∀ i : Nat,
      sumPrompt (usagesFor id (ops.take i)) ≤
        sumPrompt (usagesFor id (ops.take (i+1))) ∧
      sumCompletion (usagesFor id (ops.take i)) ≤
        sumCompletion (usagesFor id (ops.take (i+1))) ∧
      sumTotal (usagesFor id (ops.take i)) ≤
        sumTotal (usagesFor id (ops.take (i+1))) ∧
      ((usagesFor id (ops.take i)).length : Int) ≤
        ((usagesFor id (ops.take (i+1))).length : Int) := by
    intro i
    have hnn2 : ∀ op ∈ ops.take (i+1), RepoOp.Nonneg op :=
      fun op ho => hnn op (List.mem_of_mem_take ho)
    have h := sums_take_le id hnn2 i
    rwa [List.take_take, min_eq_left (Nat.le_succ i)] at h
  have hprefnn : ∀ i : Nat,
      0 ≤ sumPrompt (usagesFor id (ops.take i)) ∧
      0 ≤ sumCompletion (usagesFor id (ops.take i)) ∧
      0 ≤ sumTotal (usagesFor id (ops.take i)) := by
    intro i
    have hnn2 : ∀ op ∈ ops.take i, RepoOp.Nonneg op :=
      fun op ho => hnn op (List.mem_of_mem_take ho)
    have hu := @usagesFor_nonneg id _ hnn2
    exact ⟨sumPrompt_nonneg hu, sumCompletion_nonneg hu, sumTotal_nonneg hu⟩
  refine ⟨?_, ?_, ?_, ?_, ?_, ?_⟩
  · intro i
    have hi := mem_prefix_counters id hnn hb1 hb2 hb3 hb4 i
    have hi1 := mem_prefix_counters id hnn hb1 hb2 hb3 hb4 (i+1)
    have hs := hstep i
    exact ⟨by omega, by omega, by omega, by omega⟩
  · intro i
    have hi := mem_prefix_counters id hnn hb1 hb2 hb3 hb4 i
    have hn := hprefnn i
    exact ⟨by omega, by omega, by omega, by omega⟩
  · have hi := mem_prefix_counters id hnn hb1 hb2 hb3 hb4 ops.length
    rw [List.take_length] at hi
    exact hi.2.2.1
  · intro i
    have hi := sqlite_prefix_counters id hnn hb1 hb2 hb3 hb4 i
    have hi1 := sqlite_prefix_counters id hnn hb1 hb2 hb3 hb4 (i+1)
    have hs := hstep i
    exact ⟨by omega, by omega, by omega, by omega⟩
  · intro i
    have hi := sqlite_prefix_counters id hnn hb1 hb2 hb3 hb4 i
    have hn := hprefnn i
    exact ⟨by omega, by omega, by omega, by omega⟩
  · have hi := sqlite_prefix_counters id hnn hb1 hb2 hb3 hb4 ops.length
    rw [List.take_length] at hi
    exact hi.2.2.1

/-- Witness for the amended C8 invariant at the concrete sequence of a
single accumulate of usage (1, 1, 2) on session "s". -/
theorem counters_invariant_amended_witness :
    ((MemoryRepository.new.runOps
        [RepoOp.update "s" ⟨1, 1, 2⟩]).countersOf "s").totalTokens =
      sumTotal (usagesFor "s" [RepoOp.update "s" ⟨1, 1, 2⟩]) := by
  have h := counters_invariant_amended "s" [RepoOp.update "s" ⟨1, 1, 2⟩]
    (by
      intro op ho
      have hop : op = RepoOp.update "s" ⟨1, 1, 2⟩ := by simpa using ho
      subst hop
      show (0 : Int) ≤ 1 ∧ (0 : Int) ≤ 1 ∧ (0 : Int) ≤ 2
      decide)
    (by decide) (by decide) (by decide) (by decide)
  exact h.2.2.1


end LlmQueueProxy
